import Mathlib

/-! safe_scanf: a shallow embedding of `src/src/safe_scanf.c`

The C functions `clear_stdin_buffer`, `safe_scanf_string`, `safe_scanf_int`
and `safe_scanf_double` are embedded as pure functions that pass the state of
`stdin` and of the caller's objects explicitly.

Platform: LP64 (`int` is 32 bits, `long` and `size_t` are 64 bits), the
conversion of an out-of-range value to `int` wraps modulo `2^32`.

* A byte is a `Nat` (a `char` value `0 .. 255`); `'\n'` is `10`, `'\0'` is `0`.
* `stdin` is the list of what the device will still deliver (bytes and failed
  reads) together with its error indicator; the empty list is end-of-file.
* A `char` array is a function from index to byte; every access is checked
  against the size of the array and an access outside it ends the call with
  a `Fault` (undefined behaviour in C).
* A pointer argument is an `Option`: `none` is `NULL`, `some x` points to an
  object that currently holds `x`.
* `strtol` is modelled in full; of `strtod` the end pointer is modelled and the
  floating-point value and range error are a parameter (`strtod_arith`).
-/

namespace SafeScanf

/-! ## Platform constants -/

/-- `INT_MAX` of `<limits.h>` (32-bit `int`). -/
def INT_MAX : Int := 2147483647

/-- `INT_MIN` of `<limits.h>` (32-bit `int`). -/
def INT_MIN : Int := -2147483648

/-- `LONG_MAX` of `<limits.h>` (64-bit `long`). -/
def LONG_MAX : Int := 9223372036854775807

/-- `LONG_MIN` of `<limits.h>` (64-bit `long`). -/
def LONG_MIN : Int := -9223372036854775808

/-- `SIZE_MAX` of `<stdint.h>` (64-bit `size_t`). -/
def SIZE_MAX : Nat := 18446744073709551615

/-- `ERANGE` of `<errno.h>`. -/
def ERANGE : Int := 34

/-- The conversion `(int)buffer_size` of a `size_t` value: reduced modulo
`2^32` into the range of `int`. -/
def int_of_size_t (n : Nat) : Int :=
  if n % 4294967296 < 2147483648 then ((n % 4294967296 : Nat) : Int)
  else ((n % 4294967296 : Nat) : Int) - 4294967296

/-- The conversion `(int)result` of a `long` value: reduced modulo `2^32` into
the range of `int`. -/
def int_of_long (x : Int) : Int :=
  (x + 2147483648) % 4294967296 - 2147483648

/-- The `size_t` subtraction `a - b` (for `a`, `b` at most `SIZE_MAX`), which
wraps around modulo `SIZE_MAX + 1`. -/
def size_sub (a b : Nat) : Nat :=
  if b ≤ a then a - b else a + (SIZE_MAX + 1) - b

/-! ## Status codes (`safe_scanf.h`) -/

/-- Return codes for safe_scanf functions. -/
inductive safe_scanf_status where
  | SAFE_SCANF_SUCCESS
  | SAFE_SCANF_NULL_PTR
  | SAFE_SCANF_INVALID_FORMAT
  | SAFE_SCANF_BUFFER_OVERFLOW
  | SAFE_SCANF_CONVERSION_ERROR
  | SAFE_SCANF_IO_ERROR
  | SAFE_SCANF_INTEGER_OVERFLOW
  | SAFE_SCANF_DOUBLE_OVERFLOW
  deriving DecidableEq, Repr

open safe_scanf_status

/-- The numeric value of a status code in `safe_scanf.h`. -/
def safe_scanf_status.code : safe_scanf_status → Int
  | SAFE_SCANF_SUCCESS => 0
  | SAFE_SCANF_NULL_PTR => -1
  | SAFE_SCANF_INVALID_FORMAT => -2
  | SAFE_SCANF_BUFFER_OVERFLOW => -3
  | SAFE_SCANF_CONVERSION_ERROR => -4
  | SAFE_SCANF_IO_ERROR => -5
  | SAFE_SCANF_INTEGER_OVERFLOW => -6
  | SAFE_SCANF_DOUBLE_OVERFLOW => -7

/-! ## Memory and the input stream -/

/-- The contents of a `char` array, by index. -/
abbrev Buf := Nat → Nat

/-- Undefined behaviour met by a call: an access to a `char` array at an index
outside the array. -/
inductive Fault where
  | out_of_bounds (index : Nat)
  deriving DecidableEq, Repr

/-- The read `s[i]` of an array of `size` bytes. -/
def load (s : Buf) (size i : Nat) : Except Fault Nat :=
  if i < size then .ok (s i) else .error (.out_of_bounds i)

/-- The array `s` with `v` at index `i`. -/
def poke (s : Buf) (i v : Nat) : Buf :=
  fun j => if j = i then v else s j

/-- The write `s[i] = v` to an array of `size` bytes. -/
def store (s : Buf) (size i v : Nat) : Except Fault Buf :=
  if i < size then .ok (poke s i v) else .error (.out_of_bounds i)

/-- The first `n` bytes of an array. -/
def peek (s : Buf) (n : Nat) : List Nat :=
  (List.range n).map s

/-- One thing the device behind `stdin` delivers to a read: a byte, or a
failed read. -/
inductive Input where
  | byte (c : Nat)
  | error
  deriving DecidableEq, Repr

/-- The state of `stdin`: what is still to be delivered (the empty list is
end-of-file) and the error indicator that `ferror` tests. The end-of-file
indicator is not part of the state: no function here tests it. -/
structure FILE where
  pending : List Input
  err : Bool
  deriving DecidableEq, Repr

/-- The C library's `ferror`. -/
def ferror (f : FILE) : Bool := f.err

/-- The C library's `clearerr`. -/
def clearerr (f : FILE) : FILE := { f with err := false }

/-- The loop of `clear_stdin_buffer` over what `stdin` still delivers:
`getchar` returns `EOF` at end-of-file and at a failed read (which sets the
error indicator). -/
def clear_stdin_loop (err : Bool) : List Input → FILE
  | [] => ⟨[], err⟩
  | .error :: rest => ⟨rest, true⟩
  | .byte c :: rest => if c = 10 then ⟨rest, err⟩ else clear_stdin_loop err rest

/-- The function `clear_stdin_buffer` of `safe_scanf.c`:
`while ((c = getchar()) != '\n' && c != EOF);`. -/
def clear_stdin_buffer (stdin : FILE) : FILE :=
  clear_stdin_loop stdin.err stdin.pending

/-- What `fgets` hands back: whether it returned `s` (`true`) or `NULL`, the
array and the stream afterwards. -/
structure fgets_result where
  ret : Bool
  s : Buf
  stream : FILE

/-- The last step of a successful `fgets`: the terminating `'\0'` is written
after the last byte stored. -/
def fgets_finish (size : Nat) (s : Buf) (i : Nat) (stream : FILE) :
    Except Fault fgets_result :=
  match store s size i 0 with
  | .ok s1 => .ok ⟨true, s1, stream⟩
  | .error e => .error e

/-- The reading loop of `fgets(s, n, stream)` with `i` bytes stored so far:
at most `n - 1` bytes are stored, none after a `'\n'` (which is stored) or
after end-of-file. At end-of-file with nothing stored the array is left
unchanged and the result is `NULL`; a failed read sets the error indicator
and the result is `NULL`. -/
def fgets_loop (size : Nat) (n : Int) (err : Bool) :
    List Input → Nat → Buf → Except Fault fgets_result
  | pending, i, s =>
    if (i : Int) < n - 1 then
      match pending with
      | [] => if i = 0 then .ok ⟨false, s, ⟨[], err⟩⟩ else fgets_finish size s i ⟨[], err⟩
      | .error :: rest => .ok ⟨false, s, ⟨rest, true⟩⟩
      | .byte c :: rest =>
        match store s size i c with
        | .ok s1 =>
          if c = 10 then fgets_finish size s1 (i + 1) ⟨rest, err⟩
          else fgets_loop size n err rest (i + 1) s1
        | .error e => .error e
    else fgets_finish size s i ⟨pending, err⟩

/-- The C library's `fgets(s, n, stream)` (ISO C 7.21.7.2) on an array of
`size` bytes. With `n <= 0` nothing is read and the result is `NULL`, with
`n = 1` nothing is read and the empty string is stored (as glibc and musl
do). -/
def fgets (s : Buf) (size : Nat) (n : Int) (stream : FILE) : Except Fault fgets_result :=
  if n ≤ 0 then .ok ⟨false, s, stream⟩
  else fgets_loop size n stream.err stream.pending 0 s

/-- The scan of `strnlen` from index `i` with `k` bytes still allowed. -/
def strnlen_loop (s : Buf) : Nat → Nat → Nat
  | 0, i => i
  | k + 1, i => if s i = 0 then i else strnlen_loop s k (i + 1)

/-- The C library's `strnlen(s, maxlen)`: the index of the first `'\0'` among
the first `maxlen` bytes, or `maxlen` when there is none. -/
def strnlen (s : Buf) (maxlen : Nat) : Nat :=
  strnlen_loop s maxlen 0

/-! ## `safe_scanf_string` -/

/-- The state after a call of `safe_scanf_string`: the status returned, the
objects behind `buffer` and `chars_read`, and `stdin`. -/
structure string_result where
  status : safe_scanf_status
  buffer : Option Buf
  chars_read : Option Nat
  stdin : FILE

/-- The truncation test `len == buffer_size - 1 && buffer[len - 1] != '\n'`
(`buffer_size` is not `0` here; `len - 1` is a `size_t` subtraction and the
read happens only when the first operand holds). -/
def truncated (buf : Buf) (buffer_size len : Nat) : Except Fault Bool :=
  if len = buffer_size - 1 then
    match load buf buffer_size (size_sub len 1) with
    | .ok c => .ok (c != 10)
    | .error e => .error e
  else .ok false

/-- The test `len > 0 && buffer[len - 1] == '\n'`. -/
def trailing_newline (buf : Buf) (buffer_size len : Nat) : Except Fault Bool :=
  if 0 < len then
    match load buf buffer_size (len - 1) with
    | .ok c => .ok (c == 10)
    | .error e => .error e
  else .ok false

/-- The function `safe_scanf_string` of `safe_scanf.c`. The caller's array has
`buffer_size` bytes, which is what every access is checked against. -/
def safe_scanf_string (buffer : Option Buf) (buffer_size : Nat) (chars_read : Option Nat)
    (stdin : FILE) : Except Fault string_result :=
  match buffer, chars_read with
  | some buf, some cnt =>
    if buffer_size = 0 then
      .ok ⟨SAFE_SCANF_BUFFER_OVERFLOW, some buf, some cnt, stdin⟩
    else
      match fgets buf buffer_size (int_of_size_t buffer_size) stdin with
      | .error e => .error e
      | .ok r =>
        if r.ret = false then
          -- `fgets` returned `NULL`
          if ferror r.stream then
            .ok ⟨SAFE_SCANF_IO_ERROR, some r.s, some cnt, clearerr r.stream⟩
          else
            -- EOF reached
            match store r.s buffer_size 0 0 with
            | .error e => .error e
            | .ok buf2 => .ok ⟨SAFE_SCANF_SUCCESS, some buf2, some 0, r.stream⟩
        else
          let len := strnlen r.s buffer_size
          match truncated r.s buffer_size len with
          | .error e => .error e
          | .ok true =>
            -- Input was truncated; clear the remaining input
            .ok ⟨SAFE_SCANF_BUFFER_OVERFLOW, some r.s, some cnt, clear_stdin_buffer r.stream⟩
          | .ok false =>
            -- Remove trailing newline if present
            match trailing_newline r.s buffer_size len with
            | .error e => .error e
            | .ok true =>
              match store r.s buffer_size (len - 1) 0 with
              | .error e => .error e
              | .ok buf2 => .ok ⟨SAFE_SCANF_SUCCESS, some buf2, some (len - 1), r.stream⟩
            | .ok false => .ok ⟨SAFE_SCANF_SUCCESS, some r.s, some len, r.stream⟩
  | _, _ => .ok ⟨SAFE_SCANF_NULL_PTR, buffer, chars_read, stdin⟩

/-! ## `safe_scanf_int` -/

/-- The scan of a C string from index `i` with `k` bytes of the array left. -/
def cstring_loop (s : Buf) : Nat → Nat → Except Fault (List Nat)
  | 0, i => .error (.out_of_bounds i)
  | k + 1, i =>
    if s i = 0 then .ok []
    else
      match cstring_loop s k (i + 1) with
      | .ok t => .ok (s i :: t)
      | .error e => .error e

/-- The C string held by an array of `size` bytes: the bytes before its first
`'\0'`. Reading a string from an array without a `'\0'` runs off its end. -/
def cstring (s : Buf) (size : Nat) : Except Fault (List Nat) :=
  cstring_loop s size 0

/-- The C library's `isspace` in the "C" locale. -/
def isspace (c : Nat) : Bool :=
  c == 32 || (9 ≤ c && c ≤ 13)

/-- The C library's `isdigit`. -/
def isdigit (c : Nat) : Bool :=
  48 ≤ c && c ≤ 57

/-- The value of a run of decimal digit characters, most significant first. -/
def digits_value (ds : List Nat) : Nat :=
  ds.foldl (fun acc d => acc * 10 + (d - 48)) 0

/-- What `strtol` hands back: the value returned, `endptr` as an offset from
the start of the string, and `errno` afterwards. -/
structure strtol_result where
  result : Int
  endptr : Nat
  errno : Int
  deriving DecidableEq, Repr

/-- The part of `strtol` after the white space of length `ws` has been skipped:
an optional sign, then the longest run of decimal digits. Without a digit no
conversion is performed: the value is `0` and `endptr` is the start of the
string. A value outside the range of `long` gives `LONG_MAX` or `LONG_MIN`
and sets `errno` to `ERANGE`. -/
def strtol_subject (errno : Int) (ws : Nat) (neg : Bool) (sign : Nat) (body : List Nat) :
    strtol_result :=
  let ds := body.takeWhile isdigit
  if ds = [] then ⟨0, 0, errno⟩
  else
    let v : Int := if neg then -(digits_value ds : Int) else (digits_value ds : Int)
    if LONG_MAX < v then ⟨LONG_MAX, ws + sign + ds.length, ERANGE⟩
    else if v < LONG_MIN then ⟨LONG_MIN, ws + sign + ds.length, ERANGE⟩
    else ⟨v, ws + sign + ds.length, errno⟩

/-- The C library's `strtol(nptr, &endptr, 10)` (ISO C 7.22.1.4) on the C
string `nptr`, with `errno` as it was before the call. -/
def strtol (nptr : List Nat) (errno : Int) : strtol_result :=
  let ws := (nptr.takeWhile isspace).length
  match nptr.dropWhile isspace with
  | 45 :: body => strtol_subject errno ws true 1 body
  | 43 :: body => strtol_subject errno ws false 1 body
  | body => strtol_subject errno ws false 0 body

/-- The state after a call of `safe_scanf_int`: the status returned, the
object behind `value`, and `stdin`. -/
structure int_result where
  status : safe_scanf_status
  value : Option Int
  stdin : FILE
  deriving DecidableEq, Repr

/-- The conversion in `safe_scanf_int`, from `errno = 0` to the end of the
function, on the C string `text` that `buffer` holds; `old` is what `*value`
held at entry. -/
def safe_scanf_int_convert (old : Int) (text : List Nat) (stdin : FILE) : int_result :=
  -- Clear errno before conversion
  let c := strtol text 0
  -- Check for conversion errors: `endptr == buffer || *endptr != '\0'`
  if c.endptr = 0 ∨ text.getD c.endptr 0 ≠ 0 then
    ⟨SAFE_SCANF_CONVERSION_ERROR, some old, stdin⟩
  -- Check for overflow/underflow
  else if c.errno = ERANGE ∨ c.result > INT_MAX ∨ c.result < INT_MIN then
    ⟨SAFE_SCANF_INTEGER_OVERFLOW, some old, stdin⟩
  else ⟨SAFE_SCANF_SUCCESS, some (int_of_long c.result), stdin⟩

/-- The function `safe_scanf_int` of `safe_scanf.c`. The locals `buffer` and
`chars_read` are not initialised in the source: what they hold at entry is
given by the arguments `buffer` and `chars_read`. -/
def safe_scanf_int (value : Option Int) (stdin : FILE) (buffer : Buf) (chars_read : Nat) :
    Except Fault int_result :=
  match value with
  | none => .ok ⟨SAFE_SCANF_NULL_PTR, none, stdin⟩
  | some old =>
    match safe_scanf_string (some buffer) 32 (some chars_read) stdin with
    | .error e => .error e
    | .ok r =>
      if r.status ≠ SAFE_SCANF_SUCCESS then .ok ⟨r.status, some old, r.stdin⟩
      else
        match cstring (r.buffer.getD buffer) 32 with
        | .error e => .error e
        | .ok text => .ok (safe_scanf_int_convert old text r.stdin)

/-! ## `safe_scanf_double` -/

/-- What `strtod` hands back, for a type `D` of `double` values: the value
returned, `endptr` as an offset from the start of the string, and `errno`
afterwards. -/
structure strtod_result (D : Type) where
  result : D
  endptr : Nat
  errno : Int

/-- The state after a call of `safe_scanf_double`: the status returned, the
object behind `value`, and `stdin`. -/
structure double_result (D : Type) where
  status : safe_scanf_status
  value : Option D
  stdin : FILE

/-- The conversion in `safe_scanf_double`, from `errno = 0` to the end of the
function, on the C string `text` that `buffer` holds; `old` is what `*value`
held at entry. -/
def safe_scanf_double_convert {D : Type} (strtod : List Nat → Int → strtod_result D)
    (old : D) (text : List Nat) (stdin : FILE) : double_result D :=
  -- Clear errno before conversion
  let c := strtod text 0
  -- Check for conversion errors: `endptr == buffer || *endptr != '\0'`
  if c.endptr = 0 ∨ text.getD c.endptr 0 ≠ 0 then
    ⟨SAFE_SCANF_CONVERSION_ERROR, some old, stdin⟩
  -- Check for overflow/underflow
  else if c.errno = ERANGE then
    ⟨SAFE_SCANF_DOUBLE_OVERFLOW, some old, stdin⟩
  else ⟨SAFE_SCANF_SUCCESS, some c.result, stdin⟩

/-- The function `safe_scanf_double` of `safe_scanf.c`. The C library's
`strtod` is a parameter: it maps the C string and `errno` before the call to
the value, `endptr` and `errno` after it. The locals `buffer` and `chars_read`
are not initialised in the source: what they hold at entry is given by the
arguments `buffer` and `chars_read`. -/
def safe_scanf_double {D : Type} (strtod : List Nat → Int → strtod_result D)
    (value : Option D) (stdin : FILE) (buffer : Buf) (chars_read : Nat) :
    Except Fault (double_result D) :=
  match value with
  | none => .ok ⟨SAFE_SCANF_NULL_PTR, none, stdin⟩
  | some old =>
    match safe_scanf_string (some buffer) 64 (some chars_read) stdin with
    | .error e => .error e
    | .ok r =>
      if r.status ≠ SAFE_SCANF_SUCCESS then .ok ⟨r.status, some old, r.stdin⟩
      else
        match cstring (r.buffer.getD buffer) 64 with
        | .error e => .error e
        | .ok text => .ok (safe_scanf_double_convert strtod old text r.stdin)

/-! ## Vocabulary of the specification -/

/-- The bytes `l` as input that `stdin` delivers without a failed read. -/
def bytes (l : List Nat) : List Input :=
  l.map Input.byte

/-- The array `s` with the bytes `l` written from index `i` on. -/
def blit (s : Buf) (i : Nat) : List Nat → Buf
  | [] => s
  | c :: l => blit (poke s i c) (i + 1) l

/-- The canonical decimal representation of a natural number: its decimal
digits as characters, most significant first, without leading zeros (`"0"`
for zero). -/
def decimal_nat (m : Nat) : List Nat :=
  if m = 0 then [48] else ((Nat.digits 10 m).reverse).map (fun d => d + 48)

/-- The canonical decimal representation of an integer: a `'-'` in front of
the representation of its absolute value when it is negative. -/
def decimal (n : Int) : List Nat :=
  if n < 0 then 45 :: decimal_nat n.natAbs else decimal_nat n.natAbs

/-- The text `t` is, in its entirety, a numeric token: optional leading white
space, an optional `'+'` or `'-'`, one or more decimal digits. -/
def numeric_token (t : List Nat) : Prop :=
  ∃ ws sign ds : List Nat, t = ws ++ sign ++ ds ∧ (∀ c ∈ ws, isspace c = true) ∧
    (sign = [] ∨ sign = [43] ∨ sign = [45]) ∧ ds ≠ [] ∧ ∀ c ∈ ds, isdigit c = true

/-- The numeric value of a decimal integer literal made of the sign `sign`
(empty, `"+"` or `"-"`) and the digit characters `ds`. -/
def literal_value (sign ds : List Nat) : Int :=
  if sign = [45] then -((Nat.ofDigits 10 ((ds.map (fun c => c - 48)).reverse) : Nat) : Int)
  else ((Nat.ofDigits 10 ((ds.map (fun c => c - 48)).reverse) : Nat) : Int)

/-! ## `strtod` -/

/-- The C library's `tolower` in the "C" locale. -/
def tolower (c : Nat) : Nat :=
  if 65 ≤ c ∧ c ≤ 90 then c + 32 else c

/-- The C library's `isxdigit`. -/
def isxdigit (c : Nat) : Bool :=
  isdigit c || (97 ≤ c && c ≤ 102) || (65 ≤ c && c ≤ 70)

/-- The characters of the n-char-sequence of `NAN(...)`: digits, letters and
the underscore. -/
def is_nchar (c : Nat) : Bool :=
  isdigit c || (97 ≤ c && c ≤ 122) || (65 ≤ c && c ≤ 90) || c == 95

/-- The optional sign that `t` starts with, and what follows it. -/
def scan_sign : List Nat → List Nat × List Nat
  | 43 :: u => ([43], u)
  | 45 :: u => ([45], u)
  | u => ([], u)

/-- The exponent part that `r` starts with, for the exponent letters `lower`
and `upper`: the letter, an optional sign and one or more decimal digits. Empty
when `r` does not start with a complete exponent part. -/
def scan_exponent (lower upper : Nat) : List Nat → List Nat
  | [] => []
  | m :: t =>
    if m = lower ∨ m = upper then
      if (scan_sign t).2.takeWhile isdigit = [] then []
      else m :: ((scan_sign t).1 ++ (scan_sign t).2.takeWhile isdigit)
    else []

/-- The mantissa that `body` starts with, for the digits recognised by `isd`:
the longest run of digits that may contain one decimal point and has at least
one digit. Empty when `body` does not start with one. -/
def scan_mantissa (isd : Nat → Bool) (body : List Nat) : List Nat :=
  match body.dropWhile isd with
  | 46 :: t =>
    if body.takeWhile isd = [] ∧ t.takeWhile isd = [] then []
    else body.takeWhile isd ++ 46 :: t.takeWhile isd
  | _ => body.takeWhile isd

/-- The number that `body` starts with: a mantissa and, when one follows, an
exponent part. -/
def scan_number (isd : Nat → Bool) (lower upper : Nat) (body : List Nat) : List Nat :=
  if scan_mantissa isd body = [] then []
  else scan_mantissa isd body
    ++ scan_exponent lower upper (body.drop (scan_mantissa isd body).length)

/-- The hexadecimal floating literal that `body` starts with: `0x` or `0X`, hex
digits with an optional point, an optional binary exponent `p` or `P`. -/
def scan_hex : List Nat → List Nat
  | 48 :: x :: t =>
    if x = 120 ∨ x = 88 then
      if scan_number isxdigit 112 80 t = [] then [] else 48 :: x :: scan_number isxdigit 112 80 t
    else []
  | _ => []

/-- The `INF` or `INFINITY` that `body` starts with, ignoring case. -/
def scan_inf (body : List Nat) : List Nat :=
  if (body.take 8).map tolower = [105, 110, 102, 105, 110, 105, 116, 121] then body.take 8
  else if (body.take 3).map tolower = [105, 110, 102] then body.take 3
  else []

/-- The `NAN` or `NAN(n-char-sequence)` that `body` starts with, ignoring
case. -/
def scan_nan (body : List Nat) : List Nat :=
  if (body.take 3).map tolower = [110, 97, 110] then
    match body.drop 3 with
    | 40 :: t =>
      match t.dropWhile is_nchar with
      | 41 :: _ => body.take 3 ++ 40 :: (t.takeWhile is_nchar ++ [41])
      | _ => body.take 3
    | _ => body.take 3
  else []

/-- The subject sequence of `strtod` without its sign (ISO C 7.22.1.3): the
longest initial part of `body` that is a hexadecimal or decimal floating
literal, an infinity or a NaN. Empty when there is none. -/
def strtod_literal (body : List Nat) : List Nat :=
  if scan_hex body ≠ [] then scan_hex body
  else if scan_number isdigit 101 69 body ≠ [] then scan_number isdigit 101 69 body
  else if scan_inf body ≠ [] then scan_inf body
  else scan_nan body

/-- The arithmetic of `strtod`, which is not modelled: the `double` that a
subject sequence (sign included) converts to, `value []` being the zero
returned when no conversion is performed, and whether the conversion reports
a range error. -/
structure strtod_arith (D : Type) where
  value : List Nat → D
  range_error : List Nat → Bool

/-- The part of `strtod` after the white space of length `ws` and the sign
`sign` have been read. Without a subject sequence no conversion is performed
and `endptr` is the start of the string. -/
def strtod_subject {D : Type} (arith : strtod_arith D) (errno : Int) (ws : Nat)
    (sign body : List Nat) : strtod_result D :=
  if strtod_literal body = [] then ⟨arith.value [], 0, errno⟩
  else ⟨arith.value (sign ++ strtod_literal body),
    ws + sign.length + (strtod_literal body).length,
    if arith.range_error (sign ++ strtod_literal body) then ERANGE else errno⟩

/-- The C library's `strtod(nptr, &endptr)` (ISO C 7.22.1.3, "C" locale) on the
C string `nptr`, with `errno` as it was before the call: white space is
skipped, then an optional sign and the subject sequence are read. -/
def strtod {D : Type} (arith : strtod_arith D) (nptr : List Nat) (errno : Int) :
    strtod_result D :=
  strtod_subject arith errno (nptr.takeWhile isspace).length
    (scan_sign (nptr.dropWhile isspace)).1 (scan_sign (nptr.dropWhile isspace)).2

/-- The exponent part of a floating literal, for the exponent letters `lower`
and `upper`: the letter, an optional sign, one or more decimal digits. -/
def exponent_part (lower upper : Nat) (e : List Nat) : Prop :=
  ∃ (m : Nat) (sign ds : List Nat), e = m :: (sign ++ ds) ∧ (m = lower ∨ m = upper) ∧
    (sign = [] ∨ sign = [43] ∨ sign = [45]) ∧ ds ≠ [] ∧ ∀ c ∈ ds, isdigit c = true

/-- The mantissa of a floating literal, for the digits recognised by `isd`: a
nonempty sequence of digits optionally containing a decimal point. -/
def mantissa (isd : Nat → Bool) (m : List Nat) : Prop :=
  (m ≠ [] ∧ ∀ c ∈ m, isd c = true) ∨
  ∃ ip fp : List Nat, m = ip ++ 46 :: fp ∧ (∀ c ∈ ip, isd c = true) ∧
    (∀ c ∈ fp, isd c = true) ∧ (ip ≠ [] ∨ fp ≠ [])

/-- A mantissa followed by an optional exponent part. -/
def number_literal (isd : Nat → Bool) (lower upper : Nat) (l : List Nat) : Prop :=
  ∃ m e : List Nat, l = m ++ e ∧ mantissa isd m ∧ (e = [] ∨ exponent_part lower upper e)

/-- The text `l` is a floating-point literal in the sense of `strtod`, without
sign: a decimal floating literal, a hexadecimal one, `INF`, `INFINITY`, `NAN`
or `NAN(n-char-sequence)`, the last four in any case. -/
def float_literal (l : List Nat) : Prop :=
  number_literal isdigit 101 69 l ∨
  (∃ (x : Nat) (h : List Nat), l = 48 :: x :: h ∧ (x = 120 ∨ x = 88) ∧
    number_literal isxdigit 112 80 h) ∨
  l.map tolower = [105, 110, 102] ∨
  l.map tolower = [105, 110, 102, 105, 110, 105, 116, 121] ∨
  ∃ nan tail : List Nat, l = nan ++ tail ∧ nan.map tolower = [110, 97, 110] ∧
    (tail = [] ∨ ∃ seq : List Nat, tail = 40 :: (seq ++ [41]) ∧ ∀ c ∈ seq, is_nchar c = true)

/-- The text `t` starts with a floating-point literal: optional leading white
space, an optional sign, a floating-point literal, then anything. -/
def starts_with_float_literal (t : List Nat) : Prop :=
  ∃ ws sign lit rest : List Nat, t = ws ++ sign ++ lit ++ rest ∧
    (∀ c ∈ ws, isspace c = true) ∧ (sign = [] ∨ sign = [43] ∨ sign = [45]) ∧ float_literal lit

/-- The text `t` is, in its entirety, a floating-point token: optional leading
white space, an optional sign and a floating-point literal, with no character
left over. -/
def float_token (t : List Nat) : Prop :=
  ∃ ws sign lit : List Nat, t = ws ++ sign ++ lit ∧
    (∀ c ∈ ws, isspace c = true) ∧ (sign = [] ∨ sign = [43] ∨ sign = [45]) ∧ float_literal lit

/-! ## Arrays -/

theorem blit_apply (l : List Nat) (s : Buf) (i j : Nat) :
    blit s i l j = if i ≤ j ∧ j < i + l.length then l.getD (j - i) 0 else s j := by
  induction l generalizing s i with
  | nil =>
    have h : ¬ (i ≤ j ∧ j < i + ([] : List Nat).length) := by
      simp only [List.length_nil]; omega
    rw [if_neg h, blit]
  | cons c l ih =>
    rw [blit, ih]
    by_cases h1 : i + 1 ≤ j
    · have h2 : j - i = (j - (i + 1)) + 1 := by omega
      by_cases h3 : j < i + 1 + l.length
      · have h4 : i ≤ j ∧ j < i + (c :: l).length := by
          simp only [List.length_cons]; omega
        rw [if_pos ⟨h1, h3⟩, if_pos h4, h2]
        simp
      · have h4 : ¬ (i ≤ j ∧ j < i + (c :: l).length) := by
          simp only [List.length_cons]; omega
        have h5 : j ≠ i := by omega
        rw [if_neg (fun h => h3 h.2), if_neg h4]
        simp [poke, h5]
    · rw [if_neg (fun h => h1 h.1)]
      by_cases h3 : j = i
      · subst h3
        simp [poke]
      · have h4 : ¬ (i ≤ j ∧ j < i + (c :: l).length) := by
          simp only [List.length_cons]; omega
        rw [if_neg h4]
        simp [poke, h3]

theorem strnlen_loop_eq (b : Buf) (m : Nat) (hm : b m = 0) :
    ∀ (k i : Nat), i ≤ m → m < i + k → (∀ j, i ≤ j → j < m → b j ≠ 0) →
      strnlen_loop b k i = m := by
  intro k
  induction k with
  | zero => intro i h1 h2 _; omega
  | succ k ih =>
    intro i h1 h2 h3
    rw [strnlen_loop]
    by_cases h : i = m
    · subst h; simp [hm]
    · have hi : b i ≠ 0 := h3 i (le_refl i) (by omega)
      rw [if_neg hi]
      exact ih (i + 1) (by omega) (by omega) (fun j hj1 hj2 => h3 j (by omega) hj2)

theorem cstring_loop_eq (b : Buf) :
    ∀ (l : List Nat) (k i : Nat), l.length < k → (∀ c ∈ l, c ≠ 0) →
      (∀ j, j < l.length → b (i + j) = l.getD j 0) → b (i + l.length) = 0 →
      cstring_loop b k i = .ok l := by
  intro l
  induction l with
  | nil =>
    intro k i hk _ _ h0
    cases k with
    | zero => simp at hk
    | succ k =>
      have h0' : b i = 0 := by simpa using h0
      simp [cstring_loop, h0']
  | cons c l ih =>
    intro k i hk hnz hb h0
    cases k with
    | zero => simp at hk
    | succ k =>
      have hc : b i = c := by simpa using hb 0 (by simp)
      have hcz : c ≠ 0 := hnz c (by simp)
      have hrec := ih k (i + 1) (by simpa using hk) (fun d hd => hnz d (by simp [hd]))
        (fun j hj => by
          have := hb (j + 1) (by simpa using hj)
          simpa [Nat.add_assoc, Nat.add_comm 1 j] using this)
        (by simpa [Nat.add_assoc, Nat.add_comm 1] using h0)
      rw [cstring_loop, hc, if_neg hcz, hrec]

/-! ## `fgets` and `safe_scanf_string` on a line that fits -/

theorem int_of_size_t_small (n : Nat) (h : n ≤ 2147483647) : int_of_size_t n = (n : Int) := by
  unfold int_of_size_t
  have h1 : n % 4294967296 = n := Nat.mod_eq_of_lt (by omega)
  rw [h1, if_pos (by omega)]

theorem fgets_loop_line (size : Nat) (n : Int) (err : Bool) (rest : List Input) :
    ∀ (line : List Nat) (i : Nat) (s : Buf), (∀ c ∈ line, c ≠ 10) →
      ((i + line.length + 1 : Nat) : Int) < n → i + line.length + 1 < size →
      fgets_loop size n err (bytes line ++ Input.byte 10 :: rest) i s
        = .ok ⟨true, blit s i (line ++ [10, 0]), ⟨rest, err⟩⟩ := by
  intro line
  induction line with
  | nil =>
    intro i s _ hn hs
    have h1 : (i : Int) < n - 1 := by
      simp only [List.length_nil] at hn; omega
    have h2 : i < size := by omega
    have h3 : i + 1 < size := by simpa using hs
    simp [bytes, fgets_loop, h1, store, h2, fgets_finish, h3, blit]
  | cons c line ih =>
    intro i s hnl hn hs
    have h1 : (i : Int) < n - 1 := by
      simp only [List.length_cons] at hn; omega
    have h2 : i < size := by omega
    have hc : c ≠ 10 := hnl c (by simp)
    have hrec := ih (i + 1) (poke s i c) (fun d hd => hnl d (by simp [hd]))
      (by simp only [List.length_cons] at hn; omega)
      (by simp only [List.length_cons] at hs; omega)
    have hb : bytes (c :: line) ++ Input.byte 10 :: rest
        = Input.byte c :: (bytes line ++ Input.byte 10 :: rest) := by
      simp [bytes]
    rw [hb, fgets_loop]
    simp only [h1, if_true, store, h2, if_neg hc]
    rw [hrec]
    simp [blit]

theorem blit_line_apply (buffer : Buf) (line : List Nat) (j : Nat) :
    blit buffer 0 (line ++ [10, 0]) j
      = if j < line.length then line.getD j 0
        else if j = line.length then 10
        else if j = line.length + 1 then 0 else buffer j := by
  rw [blit_apply]
  by_cases h2 : j < line.length
  · have h3 : 0 ≤ j ∧ j < 0 + (line ++ [10, 0]).length := by
      simp only [List.length_append, List.length_cons, List.length_nil]; omega
    rw [if_pos h3, if_pos h2, Nat.sub_zero, List.getD_append _ _ _ _ h2]
  · by_cases h4 : j = line.length
    · subst h4
      have h3 : 0 ≤ line.length ∧ line.length < 0 + (line ++ [10, 0]).length := by
        simp only [List.length_append, List.length_cons, List.length_nil]; omega
      rw [if_pos h3, if_neg h2, if_pos rfl, Nat.sub_zero,
        List.getD_append_right _ _ _ _ (le_refl _), Nat.sub_self]
      rfl
    · by_cases h5 : j = line.length + 1
      · subst h5
        have h3 : 0 ≤ line.length + 1 ∧ line.length + 1 < 0 + (line ++ [10, 0]).length := by
          simp only [List.length_append, List.length_cons, List.length_nil]; omega
        rw [if_pos h3, if_neg h2, if_neg h4, if_pos rfl, Nat.sub_zero,
          List.getD_append_right _ _ _ _ (Nat.le_succ _)]
        have h6 : line.length.succ - line.length = 1 := by omega
        rw [h6]
        rfl
      · have h3 : ¬ (0 ≤ j ∧ j < 0 + (line ++ [10, 0]).length) := by
          simp only [List.length_append, List.length_cons, List.length_nil]; omega
        rw [if_neg h3, if_neg h2, if_neg h4, if_neg h5]

/-- The array after a successful read of `line` and its terminator: `fgets`
stored the line, the terminator and a `'\0'`, and the terminator was then
overwritten with a `'\0'`. -/
theorem line_image_apply (buffer : Buf) (line : List Nat) (j : Nat) :
    poke (blit buffer 0 (line ++ [10, 0])) line.length 0 j
      = if j < line.length then line.getD j 0
        else if j ≤ line.length + 1 then 0 else buffer j := by
  unfold poke
  rw [blit_line_apply]
  by_cases h1 : j = line.length
  · subst h1
    simp
  · by_cases h2 : j < line.length
    · rw [if_neg h1, if_pos h2, if_pos h2]
    · by_cases h4 : j = line.length + 1
      · subst h4
        simp
      · have h5 : ¬ j ≤ line.length + 1 := by omega
        rw [if_neg h1, if_neg h2, if_neg h1, if_neg h4, if_neg h2, if_neg h5]

theorem truncated_newline (b : Buf) (size len : Nat) (h0 : 0 < len) (hs : len ≤ size)
    (hl : b (len - 1) = 10) : truncated b size len = .ok false := by
  unfold truncated
  by_cases h : len = size - 1
  · have h1 : size_sub len 1 = len - 1 := by
      unfold size_sub
      rw [if_pos (by omega)]
    have h2 : len - 1 < size := by omega
    rw [if_pos h, h1, load, if_pos h2, hl]
    rfl
  · rw [if_neg h]

theorem truncated_short (b : Buf) (size len : Nat) (h : len ≠ size - 1) :
    truncated b size len = .ok false := by
  unfold truncated
  rw [if_neg h]

theorem trailing_newline_yes (b : Buf) (size len : Nat) (h0 : 0 < len) (hs : len ≤ size)
    (hl : b (len - 1) = 10) : trailing_newline b size len = .ok true := by
  unfold trailing_newline
  have h2 : len - 1 < size := by omega
  simp [h0, load, h2, hl]

theorem trailing_newline_no (b : Buf) (size len : Nat) (hs : len ≤ size)
    (hl : 0 < len → b (len - 1) ≠ 10) : trailing_newline b size len = .ok false := by
  unfold trailing_newline
  by_cases h0 : 0 < len
  · have h2 : len - 1 < size := by omega
    simp [h0, load, h2, hl h0]
  · rw [if_neg h0]

/-- A line that fits, for a capacity within the range of `int`: on a line free
of NUL bytes, shorter with its terminator than the capacity, the call returns
Success, the buffer holds the line followed by a `'\0'`, the count is the
length of the line and the stream is what followed the terminator. -/
theorem safe_scanf_string_line (buffer : Buf) (buffer_size chars_read : Nat) (err : Bool)
    (line : List Nat) (rest : List Input) (hcap : buffer_size ≤ 2147483647)
    (hnl : ∀ c ∈ line, c ≠ 10) (hnul : ∀ c ∈ line, c ≠ 0)
    (hlen : line.length + 1 < buffer_size) :
    safe_scanf_string (some buffer) buffer_size (some chars_read)
        ⟨bytes line ++ Input.byte 10 :: rest, err⟩
      = .ok ⟨SAFE_SCANF_SUCCESS, some (poke (blit buffer 0 (line ++ [10, 0])) line.length 0),
          some line.length, ⟨rest, err⟩⟩ := by
  have h0 : buffer_size ≠ 0 := by omega
  have hn : ¬ ((buffer_size : Int) ≤ 0) := by omega
  have hf := fgets_loop_line buffer_size (buffer_size : Int) err rest line 0 buffer hnl
    (by omega) (by omega)
  have hb := blit_line_apply buffer line
  have hlenv : strnlen (blit buffer 0 (line ++ [10, 0])) buffer_size = line.length + 1 := by
    unfold strnlen
    apply strnlen_loop_eq _ _ (by rw [hb]; simp) buffer_size 0 (by omega) (by omega)
    intro j _ hj
    rw [hb]
    by_cases h2 : j < line.length
    · rw [if_pos h2, List.getD_eq_getElem _ _ h2]
      exact hnul _ (List.getElem_mem _)
    · have h4 : j = line.length := by omega
      simp [h4]
  have hlast : blit buffer 0 (line ++ [10, 0]) line.length = 10 := by
    rw [hb]; simp
  simp only [safe_scanf_string, if_neg h0, int_of_size_t_small buffer_size hcap, fgets,
    if_neg hn, Nat.zero_add] at hf ⊢
  rw [hf]
  have h6 : line.length < buffer_size := by omega
  simp only [hlenv]
  rw [truncated_newline _ _ _ (Nat.succ_pos _) (by omega) (by simpa using hlast),
    trailing_newline_yes _ _ _ (Nat.succ_pos _) (by omega) (by simpa using hlast)]
  simp [store, h6]

/-! ## `strtol` on a numeric token -/

theorem isdigit_bounds {c : Nat} (h : isdigit c = true) : 48 ≤ c ∧ c ≤ 57 := by
  simpa [isdigit] using h

theorem isdigit_not_space {c : Nat} (h : isdigit c = true) : isspace c = false := by
  have hb := isdigit_bounds h
  have h1 : c ≠ 32 := by omega
  have h2 : ¬ (9 ≤ c ∧ c ≤ 13) := by omega
  simp [isspace, h1]
  omega

theorem digits_value_foldl (ds : List Nat) (acc : Nat) :
    ds.foldl (fun a d => a * 10 + (d - 48)) acc
      = acc * 10 ^ ds.length + Nat.ofDigits 10 ((ds.map (fun c => c - 48)).reverse) := by
  induction ds generalizing acc with
  | nil => simp
  | cons d ds ih =>
    rw [List.foldl_cons, ih, List.map_cons, List.reverse_cons, Nat.ofDigits_append,
      Nat.ofDigits_singleton, List.length_reverse, List.length_map, List.length_cons]
    ring

theorem digits_value_eq (ds : List Nat) :
    digits_value ds = Nat.ofDigits 10 ((ds.map (fun c => c - 48)).reverse) := by
  unfold digits_value
  rw [digits_value_foldl]
  simp

theorem strtol_subject_digits (errno : Int) (ws : Nat) (neg : Bool) (sign : Nat)
    (ds : List Nat) (hne : ds ≠ []) (hd : ∀ c ∈ ds, isdigit c = true) :
    strtol_subject errno ws neg sign ds
      = if LONG_MAX < (if neg then -(digits_value ds : Int) else (digits_value ds : Int)) then
          ⟨LONG_MAX, ws + sign + ds.length, ERANGE⟩
        else if (if neg then -(digits_value ds : Int) else (digits_value ds : Int)) < LONG_MIN then
          ⟨LONG_MIN, ws + sign + ds.length, ERANGE⟩
        else ⟨if neg then -(digits_value ds : Int) else (digits_value ds : Int),
          ws + sign + ds.length, errno⟩ := by
  have h : ds.takeWhile isdigit = ds := List.takeWhile_eq_self_iff.mpr hd
  simp only [strtol_subject, h, if_neg hne]

theorem strtol_token (errno : Int) (ws sign ds : List Nat)
    (hws : ∀ c ∈ ws, isspace c = true) (hsign : sign = [] ∨ sign = [43] ∨ sign = [45])
    (hne : ds ≠ []) (hd : ∀ c ∈ ds, isdigit c = true) :
    strtol (ws ++ sign ++ ds) errno
      = strtol_subject errno ws.length (decide (sign = [45])) sign.length ds := by
  obtain ⟨d, ds', rfl⟩ := List.exists_cons_of_ne_nil hne
  have hdd : isdigit d = true := hd d (by simp)
  have hdb := isdigit_bounds hdd
  have hds : isspace d = false := isdigit_not_space hdd
  have htail : ∀ tail : List Nat, (∀ c, tail.head? = some c → isspace c = false) →
      (ws ++ tail).takeWhile isspace = ws ∧ (ws ++ tail).dropWhile isspace = tail := by
    intro tail ht
    rw [List.takeWhile_append_of_pos hws, List.dropWhile_append_of_pos hws]
    cases tail with
    | nil => simp
    | cons t tail => simp [ht t rfl]
  unfold strtol
  rw [List.append_assoc]
  rcases hsign with rfl | rfl | rfl
  · obtain ⟨h1, h2⟩ := htail ([] ++ d :: ds') (by
      intro c hc
      simp only [List.nil_append, List.head?_cons, Option.some.injEq] at hc
      rw [← hc]; exact hds)
    rw [h1, h2]
    have h45 : d ≠ 45 := by omega
    have h43 : d ≠ 43 := by omega
    simp only [List.nil_append]
    split
    · rename_i heq; simp at heq; omega
    · rename_i heq; simp at heq; omega
    · simp
  · obtain ⟨h1, h2⟩ := htail ([43] ++ d :: ds') (by
      intro c hc
      simp only [List.singleton_append, List.head?_cons, Option.some.injEq] at hc
      rw [← hc]; decide)
    rw [h1, h2]
    simp
  · obtain ⟨h1, h2⟩ := htail ([45] ++ d :: ds') (by
      intro c hc
      simp only [List.singleton_append, List.head?_cons, Option.some.injEq] at hc
      rw [← hc]; decide)
    rw [h1, h2]
    simp

/-! ## `safe_scanf_int` on a line that fits -/

theorem cstring_line_image (buffer : Buf) (size : Nat) (line : List Nat)
    (hnul : ∀ c ∈ line, c ≠ 0) (hlen : line.length < size) :
    cstring (poke (blit buffer 0 (line ++ [10, 0])) line.length 0) size = .ok line := by
  unfold cstring
  apply cstring_loop_eq _ line size 0 hlen hnul
  · intro j hj
    rw [Nat.zero_add, line_image_apply, if_pos hj]
  · rw [Nat.zero_add, line_image_apply, if_neg (lt_irrefl _), if_pos (Nat.le_succ _)]

/-- On a line of at most 30 bytes, free of NUL bytes, `safe_scanf_int` is the
conversion of that line, with the stream left after the terminator. -/
theorem safe_scanf_int_line (old : Int) (buffer : Buf) (chars_read : Nat) (err : Bool)
    (line : List Nat) (rest : List Input) (hnl : ∀ c ∈ line, c ≠ 10)
    (hnul : ∀ c ∈ line, c ≠ 0) (hlen : line.length ≤ 30) :
    safe_scanf_int (some old) ⟨bytes line ++ Input.byte 10 :: rest, err⟩ buffer chars_read
      = .ok (safe_scanf_int_convert old line ⟨rest, err⟩) := by
  unfold safe_scanf_int
  simp only []
  rw [safe_scanf_string_line buffer 32 chars_read err line rest (by omega) hnl hnul (by omega)]
  simp only [ne_eq, not_true_eq_false, if_false, Option.getD_some]
  rw [cstring_line_image buffer 32 line hnul (by omega)]

theorem int_of_long_small (x : Int) (h1 : INT_MIN ≤ x) (h2 : x ≤ INT_MAX) :
    int_of_long x = x := by
  unfold int_of_long
  unfold INT_MIN at h1
  unfold INT_MAX at h2
  omega

theorem literal_value_eq (sign ds : List Nat) :
    literal_value sign ds
      = if decide (sign = [45]) = true then -(digits_value ds : Int) else (digits_value ds : Int) := by
  unfold literal_value
  rw [digits_value_eq]
  by_cases h : sign = [45] <;> simp [h]

/-- The conversion of a numeric token: Success with its value when the value
is within `INT_MIN .. INT_MAX`, IntegerOverflow otherwise. -/
theorem safe_scanf_int_convert_token (old : Int) (stdin : FILE) (ws sign ds : List Nat)
    (hws : ∀ c ∈ ws, isspace c = true) (hsign : sign = [] ∨ sign = [43] ∨ sign = [45])
    (hne : ds ≠ []) (hd : ∀ c ∈ ds, isdigit c = true) :
    safe_scanf_int_convert old (ws ++ sign ++ ds) stdin
      = if INT_MIN ≤ literal_value sign ds ∧ literal_value sign ds ≤ INT_MAX then
          ⟨SAFE_SCANF_SUCCESS, some (literal_value sign ds), stdin⟩
        else ⟨SAFE_SCANF_INTEGER_OVERFLOW, some old, stdin⟩ := by
  have hlen : 0 < ds.length := List.length_pos.mpr hne
  have hend : ws.length + sign.length + ds.length = (ws ++ sign ++ ds).length := by
    simp only [List.length_append]
  have hget : (ws ++ sign ++ ds).getD (ws ++ sign ++ ds).length 0 = 0 :=
    List.getD_eq_default _ _ (le_refl _)
  have hpos : (ws ++ sign ++ ds).length ≠ 0 := by
    rw [← hend]; omega
  unfold safe_scanf_int_convert
  rw [strtol_token 0 ws sign ds hws hsign hne hd, strtol_subject_digits _ _ _ _ ds hne hd,
    ← literal_value_eq, hend]
  generalize literal_value sign ds = v
  generalize ws ++ sign ++ ds = text at hget hpos
  have hconv : ¬ (text.length = 0 ∨ text.getD text.length 0 ≠ 0) := by
    rw [hget]; simp [hpos]
  by_cases hhi : LONG_MAX < v
  · have h1 : ¬ (INT_MIN ≤ v ∧ v ≤ INT_MAX) := by
      unfold LONG_MAX at hhi; unfold INT_MAX; omega
    simp only [hhi, if_true]
    rw [if_neg hconv, if_pos (Or.inl trivial), if_neg h1]
  · by_cases hlo : v < LONG_MIN
    · have h1 : ¬ (INT_MIN ≤ v ∧ v ≤ INT_MAX) := by
        unfold LONG_MIN at hlo; unfold INT_MIN; omega
      simp only [hhi, hlo, if_true, if_false]
      rw [if_neg hconv, if_pos (Or.inl trivial), if_neg h1]
    · simp only [hhi, hlo, if_false]
      rw [if_neg hconv]
      by_cases hr : INT_MIN ≤ v ∧ v ≤ INT_MAX
      · have h2 : ¬ ((0 : Int) = ERANGE ∨ v > INT_MAX ∨ v < INT_MIN) := by
          unfold ERANGE
          rintro (h | h | h) <;> omega
        rw [if_neg h2, if_pos hr, int_of_long_small v hr.1 hr.2]
      · have h2 : (0 : Int) = ERANGE ∨ v > INT_MAX ∨ v < INT_MIN := by
          by_contra hc
          apply hr
          constructor <;> omega
        rw [if_pos h2, if_neg hr]

/-! ## The canonical decimal representation -/

theorem decimal_nat_isdigit (m : Nat) : ∀ c ∈ decimal_nat m, isdigit c = true := by
  intro c hc
  unfold decimal_nat at hc
  by_cases h : m = 0
  · rw [if_pos h] at hc
    simp at hc
    subst hc
    decide
  · rw [if_neg h] at hc
    simp only [List.mem_map, List.mem_reverse] at hc
    obtain ⟨d, hd, rfl⟩ := hc
    have hlt : d < 10 := Nat.digits_lt_base (by norm_num) hd
    simp [isdigit]
    omega

theorem decimal_nat_ne_nil (m : Nat) : decimal_nat m ≠ [] := by
  unfold decimal_nat
  by_cases h : m = 0
  · rw [if_pos h]; simp
  · rw [if_neg h]
    simp [Nat.digits_ne_nil_iff_ne_zero, h]

theorem decimal_nat_length (m : Nat) (h : m ≤ 2147483648) : (decimal_nat m).length ≤ 10 := by
  unfold decimal_nat
  by_cases h0 : m = 0
  · rw [if_pos h0]; simp
  · rw [if_neg h0, List.length_map, List.length_reverse]
    have h1 := Nat.le_digits_len_le 10 m 2147483648 h
    have h2 : (Nat.digits 10 2147483648).length = 10 := by norm_num
    omega

theorem digits_value_decimal_nat (m : Nat) : digits_value (decimal_nat m) = m := by
  rw [digits_value_eq]
  unfold decimal_nat
  by_cases h0 : m = 0
  · rw [if_pos h0, h0]; simp
  · rw [if_neg h0, List.map_map]
    have h1 : ((fun c => c - 48) ∘ fun d => d + 48) = (id : Nat → Nat) := by
      funext d; simp
    rw [h1, List.map_id, List.reverse_reverse, Nat.ofDigits_digits]

theorem decimal_eq (n : Int) :
    decimal n = [] ++ (if n < 0 then [45] else []) ++ decimal_nat n.natAbs := by
  unfold decimal
  by_cases h : n < 0 <;> simp [h]

theorem literal_value_decimal (n : Int) :
    literal_value (if n < 0 then [45] else []) (decimal_nat n.natAbs) = n := by
  rw [literal_value_eq, digits_value_decimal_nat]
  by_cases h : n < 0
  · have hs : decide ((if n < 0 then [45] else ([] : List Nat)) = [45]) = true := by simp [h]
    rw [if_pos hs]; omega
  · have hs : ¬ decide ((if n < 0 then [45] else ([] : List Nat)) = [45]) = true := by simp [h]
    rw [if_neg hs]; omega

/-! ## The captured text of a successful read -/

theorem fgets_finish_nul (size : Nat) (s : Buf) (i : Nat) (stream : FILE) (r : fgets_result)
    (h : fgets_finish size s i stream = .ok r) : r.ret = true ∧ ∃ m, m < size ∧ r.s m = 0 := by
  unfold fgets_finish store at h
  by_cases hi : i < size
  · rw [if_pos hi] at h
    simp only [Except.ok.injEq] at h
    subst h
    exact ⟨rfl, i, hi, by simp [poke]⟩
  · rw [if_neg hi] at h
    simp at h

theorem fgets_loop_nul (size : Nat) (n : Int) (err : Bool) :
    ∀ (pending : List Input) (i : Nat) (s : Buf) (r : fgets_result),
      fgets_loop size n err pending i s = .ok r → r.ret = true → ∃ m, m < size ∧ r.s m = 0 := by
  intro pending
  induction pending with
  | nil =>
    intro i s r h hret
    rw [fgets_loop] at h
    by_cases h1 : (i : Int) < n - 1
    · rw [if_pos h1] at h
      by_cases h2 : i = 0
      · simp only [h2, if_true, Except.ok.injEq] at h
        subst h
        simp at hret
      · simp only [h2, if_false] at h
        exact (fgets_finish_nul _ _ _ _ _ h).2
    · rw [if_neg h1] at h
      exact (fgets_finish_nul _ _ _ _ _ h).2
  | cons x rest ih =>
    intro i s r h hret
    cases x with
    | error =>
      rw [fgets_loop] at h
      by_cases h1 : (i : Int) < n - 1
      · rw [if_pos h1] at h
        simp only [Except.ok.injEq] at h
        subst h
        simp at hret
      · rw [if_neg h1] at h
        exact (fgets_finish_nul _ _ _ _ _ h).2
    | byte c =>
      rw [fgets_loop] at h
      by_cases h1 : (i : Int) < n - 1
      · rw [if_pos h1] at h
        simp only [store] at h
        by_cases h2 : i < size
        · simp only [h2, if_true] at h
          by_cases h3 : c = 10
          · rw [if_pos h3] at h
            exact (fgets_finish_nul _ _ _ _ _ h).2
          · rw [if_neg h3] at h
            exact ih _ _ _ h hret
        · simp [h2] at h
      · rw [if_neg h1] at h
        exact (fgets_finish_nul _ _ _ _ _ h).2

theorem cstring_loop_ok (b : Buf) :
    ∀ (k i : Nat), (∃ m, i ≤ m ∧ m < i + k ∧ b m = 0) →
      ∃ t, cstring_loop b k i = .ok t ∧ ∀ c ∈ t, c ≠ 0 := by
  intro k
  induction k with
  | zero =>
    rintro i ⟨m, h1, h2, _⟩
    omega
  | succ k ih =>
    rintro i ⟨m, h1, h2, h3⟩
    rw [cstring_loop]
    by_cases hi : b i = 0
    · exact ⟨[], by rw [if_pos hi], by simp⟩
    · have hm : i ≠ m := fun h => hi (h ▸ h3)
      obtain ⟨t, ht, hnz⟩ := ih (i + 1) ⟨m, by omega, by omega, h3⟩
      refine ⟨b i :: t, by rw [if_neg hi, ht], ?_⟩
      intro c hc
      rcases List.mem_cons.mp hc with rfl | hc
      · exact hi
      · exact hnz c hc

theorem fgets_nul (s : Buf) (size : Nat) (n : Int) (stream : FILE) (r : fgets_result)
    (h : fgets s size n stream = .ok r) (hret : r.ret = true) : ∃ m, m < size ∧ r.s m = 0 := by
  unfold fgets at h
  by_cases hn : n ≤ 0
  · rw [if_pos hn] at h
    simp only [Except.ok.injEq] at h
    subst h
    simp at hret
  · rw [if_neg hn] at h
    exact fgets_loop_nul _ _ _ _ _ _ _ h hret

theorem store_ok (s : Buf) (size i v : Nat) (s1 : Buf) (h : store s size i v = .ok s1) :
    i < size ∧ s1 = poke s i v := by
  unfold store at h
  by_cases hi : i < size
  · rw [if_pos hi] at h
    simp only [Except.ok.injEq] at h
    exact ⟨hi, h.symm⟩
  · rw [if_neg hi] at h
    simp at h

/-- After a Success the buffer holds a `'\0'` within its capacity. -/
theorem safe_scanf_string_success_nul (buffer : Buf) (size chars_read : Nat) (stdin : FILE)
    (r : string_result)
    (h : safe_scanf_string (some buffer) size (some chars_read) stdin = .ok r)
    (hs : r.status = SAFE_SCANF_SUCCESS) :
    ∃ b, r.buffer = some b ∧ ∃ m, m < size ∧ b m = 0 := by
  unfold safe_scanf_string at h
  simp only [] at h
  by_cases h0 : size = 0
  · rw [if_pos h0] at h
    simp only [Except.ok.injEq] at h
    subst h
    simp at hs
  · rw [if_neg h0] at h
    cases hf : fgets buffer size (int_of_size_t size) stdin with
    | error e => rw [hf] at h; simp at h
    | ok fr =>
      rw [hf] at h
      simp only [] at h
      by_cases hret : fr.ret = false
      · rw [if_pos hret] at h
        by_cases herr : ferror fr.stream = true
        · rw [if_pos herr] at h
          simp only [Except.ok.injEq] at h
          subst h
          simp at hs
        · rw [if_neg herr] at h
          cases hst : store fr.s size 0 0 with
          | error e => rw [hst] at h; simp at h
          | ok b2 =>
            rw [hst] at h
            simp only [Except.ok.injEq] at h
            subst h
            obtain ⟨hlt, hb2⟩ := store_ok _ _ _ _ _ hst
            exact ⟨b2, rfl, 0, hlt, by rw [hb2]; simp [poke]⟩
      · rw [if_neg hret] at h
        have hret' : fr.ret = true := by simpa using hret
        obtain ⟨m, hm, hz⟩ := fgets_nul _ _ _ _ _ hf hret'
        cases htr : truncated fr.s size (strnlen fr.s size) with
        | error e => rw [htr] at h; simp at h
        | ok t =>
          rw [htr] at h
          cases t with
          | true =>
            simp only [Except.ok.injEq] at h
            subst h
            simp at hs
          | false =>
            simp only [] at h
            cases htn : trailing_newline fr.s size (strnlen fr.s size) with
            | error e => rw [htn] at h; simp at h
            | ok t2 =>
              rw [htn] at h
              cases t2 with
              | false =>
                simp only [Except.ok.injEq] at h
                subst h
                exact ⟨fr.s, rfl, m, hm, hz⟩
              | true =>
                simp only [] at h
                cases hst : store fr.s size (strnlen fr.s size - 1) 0 with
                | error e => rw [hst] at h; simp at h
                | ok b2 =>
                  rw [hst] at h
                  simp only [Except.ok.injEq] at h
                  subst h
                  obtain ⟨hlt, hb2⟩ := store_ok _ _ _ _ _ hst
                  exact ⟨b2, rfl, strnlen fr.s size - 1, hlt, by rw [hb2]; simp [poke]⟩

theorem safe_scanf_string_success_cstring (buffer : Buf) (size chars_read : Nat) (stdin : FILE)
    (r : string_result)
    (h : safe_scanf_string (some buffer) size (some chars_read) stdin = .ok r)
    (hs : r.status = SAFE_SCANF_SUCCESS) :
    ∃ b text, r.buffer = some b ∧ cstring b size = .ok text ∧ ∀ c ∈ text, c ≠ 0 := by
  obtain ⟨b, hb, m, hm, hz⟩ := safe_scanf_string_success_nul buffer size chars_read stdin r h hs
  obtain ⟨t, ht, hnz⟩ := cstring_loop_ok b size 0 ⟨m, Nat.zero_le _, by omega, hz⟩
  exact ⟨b, t, hb, ht, hnz⟩

/-! ## Conversion errors -/

theorem strtol_shape (text : List Nat) (errno : Int) :
    ∃ sign body, text.dropWhile isspace = sign ++ body ∧
      (sign = [] ∨ sign = [43] ∨ sign = [45]) ∧
      strtol text errno
        = strtol_subject errno (text.takeWhile isspace).length (decide (sign = [45]))
            sign.length body := by
  unfold strtol
  split
  · rename_i body heq
    exact ⟨[45], body, by rw [heq]; rfl, Or.inr (Or.inr rfl), rfl⟩
  · rename_i body heq
    exact ⟨[43], body, by rw [heq]; rfl, Or.inr (Or.inl rfl), rfl⟩
  · exact ⟨[], _, rfl, Or.inl rfl, rfl⟩

theorem strtol_subject_endptr (errno : Int) (ws : Nat) (neg : Bool) (sign : Nat)
    (body : List Nat) :
    (strtol_subject errno ws neg sign body).endptr
      = if body.takeWhile isdigit = [] then 0
        else ws + sign + (body.takeWhile isdigit).length := by
  unfold strtol_subject
  simp only []
  split_ifs <;> rfl

theorem length_le_of_getD_eq_zero (t : List Nat) (k : Nat) (hnz : ∀ c ∈ t, c ≠ 0)
    (h : t.getD k 0 = 0) : t.length ≤ k := by
  by_contra hlt
  have hk : k < t.length := by omega
  rw [List.getD_eq_getElem _ _ hk] at h
  exact hnz _ (List.getElem_mem _) h

theorem safe_scanf_int_convert_status (old : Int) (text : List Nat) (stdin : FILE) :
    (safe_scanf_int_convert old text stdin).status = SAFE_SCANF_CONVERSION_ERROR ↔
      ((strtol text 0).endptr = 0 ∨ text.getD (strtol text 0).endptr 0 ≠ 0) := by
  unfold safe_scanf_int_convert
  simp only []
  split_ifs with h1 h2
  · exact ⟨fun _ => h1, fun _ => rfl⟩
  · exact Iff.intro (fun h => by cases h) (fun h => absurd h h1)
  · exact Iff.intro (fun h => by cases h) (fun h => absurd h h1)

theorem numeric_token_of_converted (text : List Nat) (hnz : ∀ c ∈ text, c ≠ 0)
    (h1 : (strtol text 0).endptr ≠ 0) (h2 : text.getD (strtol text 0).endptr 0 = 0) :
    numeric_token text := by
  obtain ⟨sign, body, hdrop, hsign, hst⟩ := strtol_shape text 0
  rw [hst, strtol_subject_endptr] at h1 h2
  by_cases hds : body.takeWhile isdigit = []
  · rw [if_pos hds] at h1
    exact absurd rfl h1
  · rw [if_neg hds] at h2
    have hlen := length_le_of_getD_eq_zero text _ hnz h2
    have htext : text = text.takeWhile isspace ++ (sign ++
        (body.takeWhile isdigit ++ body.dropWhile isdigit)) := by
      rw [List.takeWhile_append_dropWhile, ← hdrop, List.takeWhile_append_dropWhile]
    have hl : text.length = (text.takeWhile isspace).length + (sign.length +
        ((body.takeWhile isdigit).length + (body.dropWhile isdigit).length)) := by
      conv_lhs => rw [htext]
      simp only [List.length_append]
    have hnil : body.dropWhile isdigit = [] :=
      List.eq_nil_of_length_eq_zero (by omega)
    refine ⟨text.takeWhile isspace, sign, body.takeWhile isdigit, ?_, ?_, hsign, hds, ?_⟩
    · conv_lhs => rw [htext, hnil, List.append_nil, ← List.append_assoc]
    · intro c hc
      exact (List.mem_takeWhile_imp hc)
    · intro c hc
      exact (List.mem_takeWhile_imp hc)

theorem safe_scanf_int_convert_error_iff (old : Int) (text : List Nat) (stdin : FILE)
    (hnz : ∀ c ∈ text, c ≠ 0) :
    (safe_scanf_int_convert old text stdin).status = SAFE_SCANF_CONVERSION_ERROR ↔
      ¬ numeric_token text := by
  constructor
  · rintro h ⟨ws, sign, ds, rfl, hws, hsign, hne, hd⟩
    rw [safe_scanf_int_convert_token old stdin ws sign ds hws hsign hne hd] at h
    split_ifs at h
  · intro h
    rw [safe_scanf_int_convert_status]
    by_contra hc
    apply h
    have h1 : (strtol text 0).endptr ≠ 0 := fun h0 => hc (Or.inl h0)
    have h2 : text.getD (strtol text 0).endptr 0 = 0 := by
      by_contra h0
      exact hc (Or.inr h0)
    exact numeric_token_of_converted text hnz h1 h2

theorem safe_scanf_int_of_capture (old : Int) (stdin : FILE) (buffer : Buf) (chars_read : Nat)
    (r : string_result) (b : Buf) (text : List Nat)
    (h : safe_scanf_string (some buffer) 32 (some chars_read) stdin = .ok r)
    (hs : r.status = SAFE_SCANF_SUCCESS) (hb : r.buffer = some b)
    (ht : cstring b 32 = .ok text) :
    safe_scanf_int (some old) stdin buffer chars_read
      = .ok (safe_scanf_int_convert old text r.stdin) := by
  unfold safe_scanf_int
  simp only []
  rw [h]
  simp only [hs, ne_eq, not_true_eq_false, if_false, hb, Option.getD_some, ht]

/-! ## A line that does not fit -/

theorem fgets_loop_stop (size : Nat) (n : Int) (err : Bool) (pending : List Input) (i : Nat)
    (s : Buf) (h : ¬ ((i : Int) < n - 1)) :
    fgets_loop size n err pending i s = fgets_finish size s i ⟨pending, err⟩ := by
  rcases pending with _ | ⟨_ | _, rest⟩ <;> rw [fgets_loop, if_neg h]

theorem fgets_loop_full (size : Nat) (n : Int) (err : Bool) (rest : List Input) :
    ∀ (pre : List Nat) (i : Nat) (s : Buf), (∀ c ∈ pre, c ≠ 10) →
      ((i + pre.length : Nat) : Int) = n - 1 → i + pre.length < size →
      fgets_loop size n err (bytes pre ++ rest) i s
        = .ok ⟨true, blit s i (pre ++ [0]), ⟨rest, err⟩⟩ := by
  intro pre
  induction pre with
  | nil =>
    intro i s _ hn hs
    have h1 : ¬ ((i : Int) < n - 1) := by
      simp only [List.length_nil, Nat.add_zero] at hn; omega
    have h2 : i < size := by simpa using hs
    rw [show bytes [] ++ rest = rest from rfl, fgets_loop_stop _ _ _ _ _ _ h1]
    simp [fgets_finish, store, h2, blit]
  | cons c pre ih =>
    intro i s hnl hn hs
    have h1 : (i : Int) < n - 1 := by
      simp only [List.length_cons] at hn; omega
    have h2 : i < size := by omega
    have hc : c ≠ 10 := hnl c (by simp)
    have hrec := ih (i + 1) (poke s i c) (fun d hd => hnl d (by simp [hd]))
      (by simp only [List.length_cons] at hn; omega)
      (by simp only [List.length_cons] at hs; omega)
    have hb : bytes (c :: pre) ++ rest = Input.byte c :: (bytes pre ++ rest) := by
      simp [bytes]
    rw [hb, fgets_loop]
    simp only [h1, if_true, store, h2, if_neg hc]
    rw [hrec]
    simp [blit]

theorem clear_stdin_loop_line (err : Bool) (rest : List Input) :
    ∀ (l : List Nat), (∀ c ∈ l, c ≠ 10) →
      clear_stdin_loop err (bytes l ++ Input.byte 10 :: rest) = ⟨rest, err⟩ := by
  intro l
  induction l with
  | nil => intro _; simp [bytes, clear_stdin_loop]
  | cons c l ih =>
    intro h
    have hc : c ≠ 10 := h c (by simp)
    have hb : bytes (c :: l) ++ Input.byte 10 :: rest
        = Input.byte c :: (bytes l ++ Input.byte 10 :: rest) := by
      simp [bytes]
    rw [hb, clear_stdin_loop, if_neg hc]
    exact ih (fun d hd => h d (by simp [hd]))

theorem clear_stdin_loop_eof (err : Bool) :
    ∀ (l : List Nat), (∀ c ∈ l, c ≠ 10) → clear_stdin_loop err (bytes l) = ⟨[], err⟩ := by
  intro l
  induction l with
  | nil => intro _; simp [bytes, clear_stdin_loop]
  | cons c l ih =>
    intro h
    have hc : c ≠ 10 := h c (by simp)
    have hb : bytes (c :: l) = Input.byte c :: bytes l := by
      simp [bytes]
    rw [hb, clear_stdin_loop, if_neg hc]
    exact ih (fun d hd => h d (by simp [hd]))

theorem truncated_yes (b : Buf) (size len : Nat) (h0 : 0 < len) (h : len = size - 1)
    (hl : b (len - 1) ≠ 10) : truncated b size len = .ok true := by
  unfold truncated
  have h1 : size_sub len 1 = len - 1 := by
    unfold size_sub
    rw [if_pos (by omega)]
  have h2 : len - 1 < size := by omega
  rw [if_pos h, h1, load, if_pos h2]
  simp [hl]

/-- A line that does not fit, for a capacity within the range of `int`: when
the first `buffer_size - 1` bytes are free of NUL bytes and of line
terminators, the call returns BufferOverflow, leaves the count as it was and
drains the stream with `clear_stdin_buffer`. -/
theorem safe_scanf_string_overflow (buffer : Buf) (buffer_size chars_read : Nat) (err : Bool)
    (pre : List Nat) (rest : List Input) (h2 : 2 ≤ buffer_size)
    (hcap : buffer_size ≤ 2147483647) (hnl : ∀ c ∈ pre, c ≠ 10) (hnul : ∀ c ∈ pre, c ≠ 0)
    (hlen : pre.length = buffer_size - 1) :
    safe_scanf_string (some buffer) buffer_size (some chars_read) ⟨bytes pre ++ rest, err⟩
      = .ok ⟨SAFE_SCANF_BUFFER_OVERFLOW, some (blit buffer 0 (pre ++ [0])), some chars_read,
          clear_stdin_buffer ⟨rest, err⟩⟩ := by
  have h0 : buffer_size ≠ 0 := by omega
  have hn : ¬ ((buffer_size : Int) ≤ 0) := by omega
  have hf := fgets_loop_full buffer_size (buffer_size : Int) err rest pre 0 buffer hnl
    (by omega) (by omega)
  have hb : ∀ j, j < pre.length → blit buffer 0 (pre ++ [0]) j = pre.getD j 0 := by
    intro j hj
    have h3 : 0 ≤ j ∧ j < 0 + (pre ++ [0]).length := by
      simp only [List.length_append, List.length_cons, List.length_nil]; omega
    rw [blit_apply, if_pos h3, Nat.sub_zero, List.getD_append _ _ _ _ hj]
  have hz : blit buffer 0 (pre ++ [0]) pre.length = 0 := by
    have h3 : 0 ≤ pre.length ∧ pre.length < 0 + (pre ++ [0]).length := by
      simp only [List.length_append, List.length_cons, List.length_nil]; omega
    rw [blit_apply, if_pos h3, Nat.sub_zero, List.getD_append_right _ _ _ _ (le_refl _),
      Nat.sub_self]
    rfl
  have hmem : ∀ j, j < pre.length → pre.getD j 0 ∈ pre := by
    intro j hj
    rw [List.getD_eq_getElem _ _ hj]
    exact List.getElem_mem _
  have hlenv : strnlen (blit buffer 0 (pre ++ [0])) buffer_size = pre.length := by
    unfold strnlen
    apply strnlen_loop_eq _ _ hz buffer_size 0 (by omega) (by omega)
    intro j _ hj
    rw [hb j hj]
    exact hnul _ (hmem j hj)
  have hlast : blit buffer 0 (pre ++ [0]) (pre.length - 1) ≠ 10 := by
    rw [hb _ (by omega)]
    exact hnl _ (hmem _ (by omega))
  simp only [safe_scanf_string, if_neg h0, int_of_size_t_small buffer_size hcap, fgets,
    if_neg hn, Nat.zero_add] at hf ⊢
  rw [hf]
  simp only [hlenv]
  rw [truncated_yes _ _ _ (by omega) hlen hlast]
  simp

/-- End-of-input with nothing to read and no stream error, for a capacity of
at least 2: Success with count 0 and a `'\0'` at index 0. -/
theorem safe_scanf_string_eof (buffer : Buf) (buffer_size chars_read : Nat)
    (h2 : 2 ≤ buffer_size) :
    safe_scanf_string (some buffer) buffer_size (some chars_read) ⟨[], false⟩
      = .ok ⟨SAFE_SCANF_SUCCESS, some (poke buffer 0 0), some 0, ⟨[], false⟩⟩ := by
  have h0 : buffer_size ≠ 0 := by omega
  have hpos : 0 < buffer_size := by omega
  simp only [safe_scanf_string, if_neg h0, fgets]
  by_cases hn : int_of_size_t buffer_size ≤ 0
  · simp [hn, ferror, store, hpos]
  · rw [if_neg hn, fgets_loop]
    by_cases h1 : ((0 : Nat) : Int) < int_of_size_t buffer_size - 1
    · rw [if_pos h1]
      simp [ferror, store, hpos]
    · have hlen : strnlen (poke buffer 0 0) buffer_size = 0 := by
        unfold strnlen
        exact strnlen_loop_eq _ 0 (by simp [poke]) buffer_size 0 (le_refl _) (by omega)
          (fun j _ hj => absurd hj (Nat.not_lt_zero _))
      rw [if_neg h1]
      simp only [fgets_finish, store, if_pos hpos, Bool.true_eq_false, if_false, hlen]
      rw [truncated_short _ _ _ (by omega), trailing_newline_no _ _ _ (by omega)
        (fun h => absurd h (lt_irrefl _))]

/-! ## A line too long for `safe_scanf_int` -/

theorem bytes_append (a b : List Nat) : bytes (a ++ b) = bytes a ++ bytes b := by
  simp [bytes]

/-- On a line of more than 30 bytes, free of NUL bytes, `safe_scanf_int`
returns the BufferOverflow of the line reader with the stream drained up to
and including the terminator. -/
theorem safe_scanf_int_long_line (old : Int) (buffer : Buf) (chars_read : Nat) (err : Bool)
    (line : List Nat) (rest : List Input) (hnl : ∀ c ∈ line, c ≠ 10)
    (hnul : ∀ c ∈ line, c ≠ 0) (hlen : 31 ≤ line.length) :
    safe_scanf_int (some old) ⟨bytes line ++ Input.byte 10 :: rest, err⟩ buffer chars_read
      = .ok ⟨SAFE_SCANF_BUFFER_OVERFLOW, some old, ⟨rest, err⟩⟩ := by
  have hsplit : bytes line ++ Input.byte 10 :: rest
      = bytes (line.take 31) ++ (bytes (line.drop 31) ++ Input.byte 10 :: rest) := by
    rw [← List.append_assoc, ← bytes_append, List.take_append_drop]
  have htake : ∀ c ∈ line.take 31, c ∈ line := fun c hc => List.mem_of_mem_take hc
  have hdrop : ∀ c ∈ line.drop 31, c ∈ line := fun c hc => List.mem_of_mem_drop hc
  have hl : (line.take 31).length = 32 - 1 := by
    rw [List.length_take]; omega
  unfold safe_scanf_int
  simp only []
  rw [hsplit, safe_scanf_string_overflow buffer 32 chars_read err (line.take 31) _ (by omega)
    (by omega) (fun c hc => hnl c (htake c hc)) (fun c hc => hnul c (htake c hc)) hl]
  simp only [clear_stdin_buffer]
  rw [clear_stdin_loop_line err rest (line.drop 31) (fun c hc => hnl c (hdrop c hc))]
  simp

theorem literal_chars (sign ds : List Nat) (hsign : sign = [] ∨ sign = [43] ∨ sign = [45])
    (hd : ∀ c ∈ ds, isdigit c = true) : ∀ c ∈ sign ++ ds, c ≠ 10 ∧ c ≠ 0 := by
  intro c hc
  rcases List.mem_append.mp hc with h | h
  · rcases hsign with rfl | rfl | rfl
    · simp at h
    · simp at h; omega
    · simp at h; omega
  · have := isdigit_bounds (hd c h)
    omega

/-! ## A capacity above `INT_MAX` -/

theorem bytes_replicate_succ (n c : Nat) :
    bytes (List.replicate (n + 1) c) = Input.byte c :: bytes (List.replicate n c) := by
  simp [bytes, List.replicate_succ]

theorem bytes_replicate_unfold :
    bytes (List.replicate 4294967299 97)
      = Input.byte 97 :: Input.byte 97 :: Input.byte 97 :: bytes (List.replicate 4294967296 97) :=
  (bytes_replicate_succ 4294967298 97).trans (congrArg _
    ((bytes_replicate_succ 4294967297 97).trans (congrArg _ (bytes_replicate_succ 4294967296 97))))

theorem safe_scanf_string_wrapped_capacity (tail : List Input) (buffer : Buf)
    (chars_read : Nat) (err : Bool) :
    ∃ r, safe_scanf_string (some buffer) 4294967299 (some chars_read)
          ⟨Input.byte 97 :: Input.byte 97 :: Input.byte 97 :: tail, err⟩ = .ok r ∧
      r.status = SAFE_SCANF_SUCCESS ∧ r.chars_read = some 2 ∧
      r.buffer.map (fun b => peek b 3) = some [97, 97, 0] ∧
      r.stdin = ⟨Input.byte 97 :: tail, err⟩ :=
  ⟨_, rfl, rfl, rfl, rfl, rfl⟩

/-! ## Properties of the specification -/

/-- C1 fails on the code. With capacity 4294967299 (`2^32 + 3`, a `size_t` value
above `INT_MAX`) the cast `(int)buffer_size` gives 3: on the stream `"hello\nA"`,
whose first line is free of NUL bytes and with its terminator shorter than the
capacity, `safe_scanf_string` returns Success with only `"he"` in the buffer and
count 2, and leaves `"llo\nA"` unread. -/
theorem safe_scanf_string_line_capacity_above_int_max :
    (∀ c ∈ [104, 101, 108, 108, 111], c ≠ 0 ∧ c ≠ 10) ∧
    [104, 101, 108, 108, 111].length + 1 < 4294967299 ∧
    4294967299 ≤ SIZE_MAX ∧
    ∃ r, safe_scanf_string (some (fun _ => 255)) 4294967299 (some 0)
          ⟨bytes ([104, 101, 108, 108, 111] ++ [10, 65]), false⟩ = .ok r ∧
      r.status = SAFE_SCANF_SUCCESS ∧ r.chars_read = some 2 ∧
      r.buffer.map (fun b => peek b 3) = some [104, 101, 0] ∧
      r.stdin = ⟨bytes [108, 108, 111, 10, 65], false⟩ :=
  ⟨by decide, by decide, by decide, _, rfl, rfl, rfl, rfl, rfl⟩

/-- C2 fails on the code. With capacity 4294967299 (`2^32 + 3`) and a stream of
4294967299 bytes `'a'` (free of NUL bytes, as long as the capacity, without a
line terminator), `safe_scanf_string` does not return BufferOverflow: `fgets`
is called with size 3, two bytes are captured, the length 2 is not
`buffer_size - 1`, and the call returns Success with count 2 and no drain: the
other 4294967297 bytes stay in the stream. -/
theorem safe_scanf_string_overflow_capacity_above_int_max :
    (∀ c ∈ List.replicate 4294967299 97, c ≠ 0 ∧ c ≠ 10) ∧
    4294967299 ≤ (List.replicate 4294967299 97).length ∧
    4294967299 ≤ SIZE_MAX ∧
    ∃ r, safe_scanf_string (some (fun _ => 255)) 4294967299 (some 0)
          ⟨bytes (List.replicate 4294967299 97), false⟩ = .ok r ∧
      r.status = SAFE_SCANF_SUCCESS ∧ r.chars_read = some 2 ∧
      r.buffer.map (fun b => peek b 3) = some [97, 97, 0] ∧
      r.stdin = ⟨bytes (List.replicate 4294967297 97), false⟩ := by
  refine ⟨?_, ?_, by decide, ?_⟩
  · intro c hc
    rw [List.eq_of_mem_replicate hc]
    decide
  · rw [List.length_replicate]
  · obtain ⟨r, h, hs, hc, hb, hst⟩ := safe_scanf_string_wrapped_capacity
      (bytes (List.replicate 4294967296 97)) (fun _ => 255) 0 false
    exact ⟨r, (congrArg (fun p => safe_scanf_string (some (fun _ => 255)) 4294967299 (some 0)
        ⟨p, false⟩) bytes_replicate_unfold).trans h, hs, hc, hb,
      hst.trans (congrArg (fun p => FILE.mk p false) (bytes_replicate_succ 4294967296 97).symm)⟩

/-- C3 fails on the code: Success is reported with only a prefix of the line
captured. (a) Capacity 8, stream `"\0abcdefgh\nB"`: the line has 9 bytes and does
not fit, yet the call returns Success with count 0 and leaves `"gh\nB"`, the
middle of the line, in the stream. (b) Capacity 10, stream `"ab\0cd\n"`: Success
with count 2 for a line of 5 bytes. (c) Capacity 2147483648 (`INT_MAX + 1`),
stream `"hello\n"`: Success with count 0 and nothing consumed. -/
theorem safe_scanf_string_silent_truncation :
    (∃ r, safe_scanf_string (some (fun _ => 255)) 8 (some 0)
          ⟨bytes [0, 97, 98, 99, 100, 101, 102, 103, 104, 10, 66], false⟩ = .ok r ∧
      r.status = SAFE_SCANF_SUCCESS ∧ r.chars_read = some 0 ∧
      r.buffer.map (fun b => peek b 1) = some [0] ∧
      r.stdin = ⟨bytes [103, 104, 10, 66], false⟩) ∧
    (∃ r, safe_scanf_string (some (fun _ => 255)) 10 (some 0)
          ⟨bytes [97, 98, 0, 99, 100, 10], false⟩ = .ok r ∧
      r.status = SAFE_SCANF_SUCCESS ∧ r.chars_read = some 2 ∧
      r.buffer.map (fun b => peek b 3) = some [97, 98, 0] ∧
      r.stdin = ⟨[], false⟩) ∧
    (∃ r, safe_scanf_string (some (fun _ => 255)) 2147483648 (some 7)
          ⟨bytes [104, 101, 108, 108, 111, 10], false⟩ = .ok r ∧
      r.status = SAFE_SCANF_SUCCESS ∧ r.chars_read = some 0 ∧
      r.buffer.map (fun b => peek b 1) = some [0] ∧
      r.stdin = ⟨bytes [104, 101, 108, 108, 111, 10], false⟩) :=
  ⟨⟨_, rfl, rfl, rfl, rfl, rfl⟩, ⟨_, rfl, rfl, rfl, rfl, rfl⟩, ⟨_, rfl, rfl, rfl, rfl, rfl⟩⟩

/-- C4 fails on the code. With capacity 1, whatever the buffer holds and whatever
the stream delivers, `fgets` stores the empty string without reading, `len` is
0 and equals `buffer_size - 1`, and the truncation test reads
`buffer[len - 1]`, which is index `SIZE_MAX`, outside `0 .. capacity - 1`. -/
theorem safe_scanf_string_capacity_one_out_of_bounds (buffer : Buf) (chars_read : Nat)
    (stdin : FILE) :
    safe_scanf_string (some buffer) 1 (some chars_read) stdin
      = .error (.out_of_bounds SIZE_MAX) := by
  have hi : ¬ (int_of_size_t 1 ≤ 0) := by decide
  have hn : ¬ (((0 : Nat) : Int) < int_of_size_t 1 - 1) := by decide
  have hf : fgets buffer 1 (int_of_size_t 1) stdin = .ok ⟨true, poke buffer 0 0, stdin⟩ := by
    unfold fgets
    rw [if_neg hi, fgets_loop_stop _ _ _ _ _ _ hn]
    simp [fgets_finish, store]
  have hlen : strnlen (poke buffer 0 0) 1 = 0 := by
    simp [strnlen, strnlen_loop, poke]
  have hsub : size_sub 0 1 = SIZE_MAX := by decide
  have htr : truncated (poke buffer 0 0) 1 0 = .error (.out_of_bounds SIZE_MAX) := by
    unfold truncated load
    rw [if_pos rfl, hsub, if_neg (by decide)]
  unfold safe_scanf_string
  simp only []
  rw [if_neg one_ne_zero, hf]
  simp only [Bool.true_eq_false, if_false, hlen, htr]

/-- C5. Decimal round trip: for every `n` with `INT_MIN <= n <= INT_MAX`, on the
canonical decimal representation of `n` followed by a line terminator and then
`rest`, `safe_scanf_int` returns Success, writes `n` to the output and leaves
the stream equal to `rest`. -/
theorem safe_scanf_int_decimal_round_trip (n : Int) (hmin : INT_MIN ≤ n) (hmax : n ≤ INT_MAX) (old : Int)
    (rest : List Input) (err : Bool) (buffer : Buf) (chars_read : Nat) :
    safe_scanf_int (some old) ⟨bytes (decimal n) ++ Input.byte 10 :: rest, err⟩ buffer chars_read
      = .ok ⟨SAFE_SCANF_SUCCESS, some n, ⟨rest, err⟩⟩ := by
  have habs : n.natAbs ≤ 2147483648 := by
    unfold INT_MIN at hmin; unfold INT_MAX at hmax; omega
  have hsign : (if n < 0 then [45] else ([] : List Nat)) = [] ∨
      (if n < 0 then [45] else ([] : List Nat)) = [43] ∨
      (if n < 0 then [45] else ([] : List Nat)) = [45] := by
    by_cases h : n < 0 <;> simp [h]
  have hchars : ∀ c ∈ decimal n, c = 45 ∨ isdigit c = true := by
    intro c hc
    rw [decimal_eq] at hc
    simp only [List.nil_append, List.mem_append] at hc
    rcases hc with hc | hc
    · left
      by_cases h : n < 0
      · simpa [h] using hc
      · simp [h] at hc
    · right; exact decimal_nat_isdigit _ c hc
  have hnl : ∀ c ∈ decimal n, c ≠ 10 := by
    intro c hc
    rcases hchars c hc with h | h
    · omega
    · have := isdigit_bounds h; omega
  have hnul : ∀ c ∈ decimal n, c ≠ 0 := by
    intro c hc
    rcases hchars c hc with h | h
    · omega
    · have := isdigit_bounds h; omega
  have hlen : (decimal n).length ≤ 30 := by
    have h1 := decimal_nat_length n.natAbs habs
    rw [decimal_eq]
    by_cases h : n < 0 <;> simp [h] <;> omega
  rw [safe_scanf_int_line old buffer chars_read err (decimal n) rest hnl hnul hlen, decimal_eq,
    safe_scanf_int_convert_token old ⟨rest, err⟩ [] _ _ (by simp) hsign (decimal_nat_ne_nil _)
      (decimal_nat_isdigit _),
    literal_value_decimal, if_pos ⟨hmin, hmax⟩]

theorem safe_scanf_int_decimal_round_trip_witness :
    INT_MIN ≤ (-42 : Int) ∧ (-42 : Int) ≤ INT_MAX ∧
    safe_scanf_int (some 7) ⟨bytes [45, 52, 50] ++ Input.byte 10 :: bytes [55, 10], false⟩
        (fun _ => 255) 0
      = .ok ⟨SAFE_SCANF_SUCCESS, some (-42), ⟨bytes [55, 10], false⟩⟩ := by
  have h := safe_scanf_int_decimal_round_trip (-42) (by decide) (by decide) 7 (bytes [55, 10])
    false (fun _ => 255) 0
  have hd : decimal (-42) = [45, 52, 50] := by norm_num [decimal, decimal_nat]
  rw [hd] at h
  exact ⟨by decide, by decide, h⟩

/-- C6. Whenever the line reader captures the first line successfully into the
32-byte buffer, `safe_scanf_int` returns ConversionError if and only if the
captured text (the C string in the buffer) is not, in its entirety, a numeric
token: optional leading white space, optional sign, one or more digits. -/
theorem safe_scanf_int_conversion_error_iff (old : Int) (stdin : FILE) (buffer : Buf) (chars_read : Nat)
    (r : string_result)
    (h : safe_scanf_string (some buffer) 32 (some chars_read) stdin = .ok r)
    (hs : r.status = SAFE_SCANF_SUCCESS) :
    ∃ b text ri, r.buffer = some b ∧ cstring b 32 = .ok text ∧
      safe_scanf_int (some old) stdin buffer chars_read = .ok ri ∧
      (ri.status = SAFE_SCANF_CONVERSION_ERROR ↔ ¬ numeric_token text) := by
  obtain ⟨b, text, hb, ht, hnz⟩ :=
    safe_scanf_string_success_cstring buffer 32 chars_read stdin r h hs
  exact ⟨b, text, _, hb, ht, safe_scanf_int_of_capture old stdin buffer chars_read r b text h hs hb ht,
    safe_scanf_int_convert_error_iff old text r.stdin hnz⟩


theorem safe_scanf_int_conversion_error_iff_witness :
    safe_scanf_string (some (fun _ => 255)) 32 (some 0) ⟨bytes [52, 50, 97, 98, 99, 10], false⟩
      = .ok ⟨SAFE_SCANF_SUCCESS,
          some (poke (blit (fun _ => 255) 0 ([52, 50, 97, 98, 99] ++ [10, 0])) 5 0), some 5,
          ⟨[], false⟩⟩ ∧
    ∃ b text ri,
      some (poke (blit (fun _ => 255) 0 ([52, 50, 97, 98, 99] ++ [10, 0])) 5 0) = some b ∧
      cstring b 32 = .ok text ∧
      safe_scanf_int (some 7) ⟨bytes [52, 50, 97, 98, 99, 10], false⟩ (fun _ => 255) 0 = .ok ri ∧
      (ri.status = SAFE_SCANF_CONVERSION_ERROR ↔ ¬ numeric_token text) :=
  ⟨rfl, safe_scanf_int_conversion_error_iff 7 ⟨bytes [52, 50, 97, 98, 99, 10], false⟩
    (fun _ => 255) 0
    ⟨SAFE_SCANF_SUCCESS, some (poke (blit (fun _ => 255) 0 ([52, 50, 97, 98, 99] ++ [10, 0])) 5 0),
      some 5, ⟨[], false⟩⟩ rfl rfl⟩

/-- Conversion errors evaluated: the empty line, end-of-input with zero bytes,
`"abc"`, `"42abc"` and the out-of-range number followed by garbage
`"99999999999999999999x"` all give ConversionError, with the output left as it
was. -/
theorem safe_scanf_int_conversion_error_cases :
    safe_scanf_int (some 7) ⟨bytes [10, 66], false⟩ (fun _ => 255) 0
      = .ok ⟨SAFE_SCANF_CONVERSION_ERROR, some 7, ⟨bytes [66], false⟩⟩ ∧
    safe_scanf_int (some 7) ⟨[], false⟩ (fun _ => 255) 0
      = .ok ⟨SAFE_SCANF_CONVERSION_ERROR, some 7, ⟨[], false⟩⟩ ∧
    safe_scanf_int (some 7) ⟨bytes [97, 98, 99, 10], false⟩ (fun _ => 255) 0
      = .ok ⟨SAFE_SCANF_CONVERSION_ERROR, some 7, ⟨[], false⟩⟩ ∧
    safe_scanf_int (some 7) ⟨bytes [52, 50, 97, 98, 99, 10], false⟩ (fun _ => 255) 0
      = .ok ⟨SAFE_SCANF_CONVERSION_ERROR, some 7, ⟨[], false⟩⟩ ∧
    safe_scanf_int (some 7) ⟨bytes (List.replicate 20 57 ++ [120, 10]), false⟩ (fun _ => 255) 0
      = .ok ⟨SAFE_SCANF_CONVERSION_ERROR, some 7, ⟨[], false⟩⟩ :=
  ⟨rfl, rfl, rfl, rfl, rfl⟩

/-- C7 as stated fails: the line of 31 digits `'9'`, a decimal integer literal
whose value is above `INT_MAX`, makes `safe_scanf_int` fail with BufferOverflow,
which the line reader reports for a line of more than 30 characters, and not
with IntegerOverflow. -/
theorem safe_scanf_int_long_literal_buffer_overflow :
    (∀ c ∈ List.replicate 31 57, isdigit c = true) ∧
    INT_MAX < literal_value [] (List.replicate 31 57) ∧
    ∃ r, safe_scanf_int (some 7) ⟨bytes (List.replicate 31 57) ++ [Input.byte 10], false⟩
          (fun _ => 255) 0 = .ok r ∧
      r.status = SAFE_SCANF_BUFFER_OVERFLOW ∧ r.status ≠ SAFE_SCANF_INTEGER_OVERFLOW ∧
      r.value = some 7 := by
  refine ⟨by decide, ?_, _, rfl, rfl, by decide, rfl⟩
  rw [literal_value_eq]
  decide

/-- C7 amended. For every input line that is a decimal integer literal (optional
sign, one or more digits) whose value lies outside `INT_MIN .. INT_MAX`:
`safe_scanf_int` fails with IntegerOverflow when the literal has at most 30
characters and with BufferOverflow when it has more; in both cases the output
keeps the value it had and the stream is left after the line terminator. -/
theorem safe_scanf_int_out_of_range (sign ds : List Nat)
    (hsign : sign = [] ∨ sign = [43] ∨ sign = [45]) (hne : ds ≠ [])
    (hd : ∀ c ∈ ds, isdigit c = true)
    (hout : literal_value sign ds < INT_MIN ∨ INT_MAX < literal_value sign ds)
    (old : Int) (rest : List Input) (err : Bool) (buffer : Buf) (chars_read : Nat) :
    safe_scanf_int (some old) ⟨bytes (sign ++ ds) ++ Input.byte 10 :: rest, err⟩ buffer chars_read
      = .ok ⟨if (sign ++ ds).length ≤ 30 then SAFE_SCANF_INTEGER_OVERFLOW
             else SAFE_SCANF_BUFFER_OVERFLOW, some old, ⟨rest, err⟩⟩ := by
  have hch := literal_chars sign ds hsign hd
  by_cases hlen : (sign ++ ds).length ≤ 30
  · have hnot : ¬ (INT_MIN ≤ literal_value sign ds ∧ literal_value sign ds ≤ INT_MAX) := by
      intro h
      rcases hout with h1 | h1 <;> omega
    rw [if_pos hlen, safe_scanf_int_line old buffer chars_read err (sign ++ ds) rest
      (fun c hc => (hch c hc).1) (fun c hc => (hch c hc).2) hlen]
    have h := safe_scanf_int_convert_token old ⟨rest, err⟩ [] sign ds (by simp) hsign hne hd
    rw [List.nil_append] at h
    rw [h, if_neg hnot]
  · rw [if_neg hlen, safe_scanf_int_long_line old buffer chars_read err (sign ++ ds) rest
      (fun c hc => (hch c hc).1) (fun c hc => (hch c hc).2) (by omega)]


theorem safe_scanf_int_out_of_range_witness :
    (([] : List Nat) = [] ∨ ([] : List Nat) = [43] ∨ ([] : List Nat) = [45]) ∧
    List.replicate 20 57 ≠ [] ∧ (∀ c ∈ List.replicate 20 57, isdigit c = true) ∧
    (literal_value [] (List.replicate 20 57) < INT_MIN ∨
      INT_MAX < literal_value [] (List.replicate 20 57)) ∧
    safe_scanf_int (some 7) ⟨bytes ([] ++ List.replicate 20 57) ++ Input.byte 10 :: [], false⟩
        (fun _ => 255) 0
      = .ok ⟨if ([] ++ List.replicate 20 57).length ≤ 30 then SAFE_SCANF_INTEGER_OVERFLOW
             else SAFE_SCANF_BUFFER_OVERFLOW, some 7, ⟨[], false⟩⟩ := by
  have h1 : ([] : List Nat) = [] ∨ ([] : List Nat) = [43] ∨ ([] : List Nat) = [45] := Or.inl rfl
  have h2 : List.replicate 20 57 ≠ [] := by decide
  have h3 : ∀ c ∈ List.replicate 20 57, isdigit c = true := by decide
  have h4 : literal_value [] (List.replicate 20 57) < INT_MIN ∨
      INT_MAX < literal_value [] (List.replicate 20 57) := by
    right
    rw [literal_value_eq]
    decide
  exact ⟨h1, h2, h3, h4,
    safe_scanf_int_out_of_range [] (List.replicate 20 57) h1 h2 h3 h4 7 [] false (fun _ => 255) 0⟩

/-- C8. A null reference fails with NullReference and the stream is left exactly
as it was: `safe_scanf_string` with a null buffer or a null count output,
`safe_scanf_int` and `safe_scanf_double` with a null output, for every stream
state, capacity and other argument. -/
theorem null_reference_leaves_stream :
    (∀ (buffer_size : Nat) (chars_read : Option Nat) (stdin : FILE),
      safe_scanf_string none buffer_size chars_read stdin
        = .ok ⟨SAFE_SCANF_NULL_PTR, none, chars_read, stdin⟩) ∧
    (∀ (buffer : Option Buf) (buffer_size : Nat) (stdin : FILE),
      safe_scanf_string buffer buffer_size none stdin
        = .ok ⟨SAFE_SCANF_NULL_PTR, buffer, none, stdin⟩) ∧
    (∀ (stdin : FILE) (buffer : Buf) (chars_read : Nat),
      safe_scanf_int none stdin buffer chars_read = .ok ⟨SAFE_SCANF_NULL_PTR, none, stdin⟩) ∧
    (∀ (D : Type) (strtod : List Nat → Int → strtod_result D) (stdin : FILE) (buffer : Buf)
        (chars_read : Nat),
      safe_scanf_double strtod none stdin buffer chars_read
        = .ok ⟨SAFE_SCANF_NULL_PTR, none, stdin⟩) := by
  refine ⟨fun _ _ _ => rfl, ?_, fun _ _ _ => rfl, fun _ _ _ _ _ => rfl⟩
  intro buffer buffer_size stdin
  cases buffer <;> rfl

/-- C9 as stated fails: with a null buffer, capacity 0 gives NullReference, not
BufferOverflow, because the null check comes first. -/
theorem safe_scanf_string_capacity_zero_null_buffer :
    ∃ r, safe_scanf_string none 0 (some 0) ⟨bytes [97, 10], false⟩ = .ok r ∧
      r.status = SAFE_SCANF_NULL_PTR ∧ r.status ≠ SAFE_SCANF_BUFFER_OVERFLOW :=
  ⟨_, rfl, rfl, by decide⟩

/-- C9 amended. With non-null buffer and count references, a call with capacity 0
returns BufferOverflow and leaves the input stream, the buffer and the count
unchanged, for every stream state. -/
theorem safe_scanf_string_capacity_zero (buffer : Buf) (chars_read : Nat) (stdin : FILE) :
    safe_scanf_string (some buffer) 0 (some chars_read) stdin
      = .ok ⟨SAFE_SCANF_BUFFER_OVERFLOW, some buffer, some chars_read, stdin⟩ :=
  rfl

/-- C10 fails on the code at capacity 1: at end-of-input with no stream error
the call does not return Success, it reads `buffer[len - 1]` with `len = 0`
(index `SIZE_MAX`, out of bounds), the same defect as in C4. -/
theorem safe_scanf_string_eof_capacity_one :
    (⟨[], false⟩ : FILE).pending = [] ∧ ferror ⟨[], false⟩ = false ∧
    safe_scanf_string (some (fun _ => 255)) 1 (some 7) ⟨[], false⟩
      = .error (.out_of_bounds 18446744073709551615) :=
  ⟨rfl, rfl, rfl⟩

/-! ## Every outcome of `safe_scanf_string` -/

theorem strnlen_loop_spec (s : Buf) :
    ∀ (k i : Nat), i ≤ strnlen_loop s k i ∧ strnlen_loop s k i ≤ i + k ∧
      (∀ j, i ≤ j → j < strnlen_loop s k i → s j ≠ 0) ∧
      (strnlen_loop s k i < i + k → s (strnlen_loop s k i) = 0) := by
  intro k
  induction k with
  | zero =>
    intro i
    rw [strnlen_loop]
    exact ⟨le_refl _, le_refl _, fun j h1 h2 => absurd h2 (by omega), fun h => absurd h (by omega)⟩
  | succ k ih =>
    intro i
    rw [strnlen_loop]
    by_cases h : s i = 0
    · rw [if_pos h]
      exact ⟨le_refl _, by omega, fun j h1 h2 => absurd h2 (by omega), fun _ => h⟩
    · rw [if_neg h]
      obtain ⟨h1, h2, h3, h4⟩ := ih (i + 1)
      refine ⟨by omega, by omega, ?_, fun hlt => h4 (by omega)⟩
      intro j hj1 hj2
      by_cases hji : j = i
      · rw [hji]; exact h
      · exact h3 j (by omega) hj2

theorem strnlen_spec (s : Buf) (maxlen : Nat) :
    strnlen s maxlen ≤ maxlen ∧ (∀ j, j < strnlen s maxlen → s j ≠ 0) ∧
      (strnlen s maxlen < maxlen → s (strnlen s maxlen) = 0) := by
  obtain ⟨_, h2, h3, h4⟩ := strnlen_loop_spec s maxlen 0
  unfold strnlen
  exact ⟨by omega, fun j hj => h3 j (Nat.zero_le _) hj, fun h => h4 (by omega)⟩

theorem strnlen_le_of_nul (s : Buf) (maxlen m : Nat) (hz : s m = 0) :
    strnlen s maxlen ≤ m := by
  obtain ⟨_, h2, _⟩ := strnlen_spec s maxlen
  by_contra hlt
  exact h2 m (by omega) hz

theorem truncated_false (b : Buf) (size len : Nat) (h : truncated b size len = .ok false) :
    len ≠ size - 1 ∨ (size_sub len 1 < size ∧ b (size_sub len 1) = 10) := by
  unfold truncated at h
  by_cases h1 : len = size - 1
  · right
    rw [if_pos h1] at h
    unfold load at h
    by_cases h2 : size_sub len 1 < size
    · rw [if_pos h2] at h
      simp only [Except.ok.injEq, bne_eq_false_iff_eq] at h
      exact ⟨h2, h⟩
    · rw [if_neg h2] at h
      simp at h
  · exact Or.inl h1

theorem trailing_newline_true (b : Buf) (size len : Nat)
    (h : trailing_newline b size len = .ok true) :
    0 < len ∧ len - 1 < size ∧ b (len - 1) = 10 := by
  unfold trailing_newline at h
  by_cases h1 : 0 < len
  · rw [if_pos h1] at h
    unfold load at h
    by_cases h2 : len - 1 < size
    · rw [if_pos h2] at h
      simp only [Except.ok.injEq, beq_iff_eq] at h
      exact ⟨h1, h2, h⟩
    · rw [if_neg h2] at h
      simp at h
  · rw [if_neg h1] at h
    simp at h

theorem trailing_newline_false (b : Buf) (size len : Nat)
    (h : trailing_newline b size len = .ok false) : 0 < len → b (len - 1) ≠ 10 := by
  intro h1
  unfold trailing_newline at h
  rw [if_pos h1] at h
  unfold load at h
  by_cases h2 : len - 1 < size
  · rw [if_pos h2] at h
    simp only [Except.ok.injEq, beq_eq_false_iff_ne, ne_eq] at h
    exact h
  · rw [if_neg h2] at h
    simp at h

/-- Every way in which `safe_scanf_string` returns with non-null `buffer` and
`chars_read`: capacity 0; `fgets` returned `NULL` with or without the error
indicator set; truncation detected; the terminator stripped; or the text
taken as it is. -/
theorem safe_scanf_string_cases (buffer : Buf) (size chars_read : Nat) (stdin : FILE)
    (r : string_result)
    (h : safe_scanf_string (some buffer) size (some chars_read) stdin = .ok r) :
    (size = 0 ∧ r = ⟨SAFE_SCANF_BUFFER_OVERFLOW, some buffer, some chars_read, stdin⟩) ∨
    (size ≠ 0 ∧ ∃ fr, fgets buffer size (int_of_size_t size) stdin = .ok fr ∧
      ((fr.ret = false ∧ ferror fr.stream = true ∧
          r = ⟨SAFE_SCANF_IO_ERROR, some fr.s, some chars_read, clearerr fr.stream⟩) ∨
       (fr.ret = false ∧ ferror fr.stream = false ∧
          r = ⟨SAFE_SCANF_SUCCESS, some (poke fr.s 0 0), some 0, fr.stream⟩) ∨
       (fr.ret = true ∧ truncated fr.s size (strnlen fr.s size) = .ok true ∧
          r = ⟨SAFE_SCANF_BUFFER_OVERFLOW, some fr.s, some chars_read,
            clear_stdin_buffer fr.stream⟩) ∨
       (fr.ret = true ∧ truncated fr.s size (strnlen fr.s size) = .ok false ∧
          trailing_newline fr.s size (strnlen fr.s size) = .ok true ∧
          r = ⟨SAFE_SCANF_SUCCESS, some (poke fr.s (strnlen fr.s size - 1) 0),
            some (strnlen fr.s size - 1), fr.stream⟩) ∨
       (fr.ret = true ∧ truncated fr.s size (strnlen fr.s size) = .ok false ∧
          trailing_newline fr.s size (strnlen fr.s size) = .ok false ∧
          r = ⟨SAFE_SCANF_SUCCESS, some fr.s, some (strnlen fr.s size), fr.stream⟩))) := by
  unfold safe_scanf_string at h
  simp only [] at h
  by_cases h0 : size = 0
  · rw [if_pos h0] at h
    simp only [Except.ok.injEq] at h
    exact Or.inl ⟨h0, h.symm⟩
  · rw [if_neg h0] at h
    right
    refine ⟨h0, ?_⟩
    cases hf : fgets buffer size (int_of_size_t size) stdin with
    | error e => rw [hf] at h; simp at h
    | ok fr =>
      rw [hf] at h
      simp only [] at h
      refine ⟨fr, rfl, ?_⟩
      by_cases hret : fr.ret = false
      · rw [if_pos hret] at h
        by_cases herr : ferror fr.stream = true
        · rw [if_pos herr] at h
          simp only [Except.ok.injEq] at h
          exact Or.inl ⟨hret, herr, h.symm⟩
        · rw [if_neg herr] at h
          cases hst : store fr.s size 0 0 with
          | error e => rw [hst] at h; simp at h
          | ok b2 =>
            rw [hst] at h
            simp only [Except.ok.injEq] at h
            obtain ⟨_, hb2⟩ := store_ok _ _ _ _ _ hst
            rw [hb2] at h
            exact Or.inr (Or.inl ⟨hret, by simpa using herr, h.symm⟩)
      · rw [if_neg hret] at h
        have hret' : fr.ret = true := by simpa using hret
        cases htr : truncated fr.s size (strnlen fr.s size) with
        | error e => rw [htr] at h; simp at h
        | ok t =>
          rw [htr] at h
          cases t with
          | true =>
            simp only [Except.ok.injEq] at h
            exact Or.inr (Or.inr (Or.inl ⟨hret', rfl, h.symm⟩))
          | false =>
            simp only [] at h
            cases htn : trailing_newline fr.s size (strnlen fr.s size) with
            | error e => rw [htn] at h; simp at h
            | ok t2 =>
              rw [htn] at h
              cases t2 with
              | false =>
                simp only [Except.ok.injEq] at h
                exact Or.inr (Or.inr (Or.inr (Or.inr ⟨hret', rfl, rfl, h.symm⟩)))
              | true =>
                simp only [] at h
                cases hst : store fr.s size (strnlen fr.s size - 1) 0 with
                | error e => rw [hst] at h; simp at h
                | ok b2 =>
                  rw [hst] at h
                  simp only [Except.ok.injEq] at h
                  obtain ⟨_, hb2⟩ := store_ok _ _ _ _ _ hst
                  rw [hb2] at h
                  exact Or.inr (Or.inr (Or.inr (Or.inl ⟨hret', rfl, rfl, h.symm⟩)))

/-! ## The string left by a successful read -/

theorem fgets_finish_shape (size : Nat) (s : Buf) (i : Nat) (stream : FILE) (r : fgets_result)
    (h : fgets_finish size s i stream = .ok r) :
    i < size ∧ r.s i = 0 ∧ ∀ j, j < i → r.s j = s j := by
  unfold fgets_finish store at h
  by_cases hi : i < size
  · rw [if_pos hi] at h
    simp only [Except.ok.injEq] at h
    subst h
    refine ⟨hi, by simp [poke], ?_⟩
    intro j hj
    have hne : j ≠ i := by omega
    simp [poke, hne]
  · rw [if_neg hi] at h
    simp at h

/-- What a successful `fgets` leaves in the array, from index `i` on: a
`'\0'` at some index `m` inside the array, no line terminator before index
`m - 1`, and the bytes before index `i` as they were. -/
theorem fgets_loop_shape (size : Nat) (n : Int) (err : Bool) :
    ∀ (pending : List Input) (i : Nat) (s : Buf) (r : fgets_result),
      fgets_loop size n err pending i s = .ok r → r.ret = true →
      ∃ m, i ≤ m ∧ m < size ∧ r.s m = 0 ∧ (∀ j, i ≤ j → j + 1 < m → r.s j ≠ 10) ∧
        ∀ j, j < i → r.s j = s j := by
  have hfin : ∀ (s : Buf) (i : Nat) (stream : FILE) (r : fgets_result),
      fgets_finish size s i stream = .ok r →
      ∃ m, i ≤ m ∧ m < size ∧ r.s m = 0 ∧ (∀ j, i ≤ j → j + 1 < m → r.s j ≠ 10) ∧
        ∀ j, j < i → r.s j = s j := by
    intro s i stream r h
    obtain ⟨h1, h2, h3⟩ := fgets_finish_shape _ _ _ _ _ h
    exact ⟨i, le_refl _, h1, h2, fun j hj1 hj2 => absurd hj2 (by omega), h3⟩
  intro pending
  induction pending with
  | nil =>
    intro i s r h hret
    rw [fgets_loop] at h
    by_cases h1 : (i : Int) < n - 1
    · rw [if_pos h1] at h
      by_cases h2 : i = 0
      · simp only [h2, if_true, Except.ok.injEq] at h
        subst h
        simp at hret
      · simp only [h2, if_false] at h
        exact hfin _ _ _ _ h
    · rw [if_neg h1] at h
      exact hfin _ _ _ _ h
  | cons x rest ih =>
    intro i s r h hret
    cases x with
    | error =>
      rw [fgets_loop] at h
      by_cases h1 : (i : Int) < n - 1
      · rw [if_pos h1] at h
        simp only [Except.ok.injEq] at h
        subst h
        simp at hret
      · rw [if_neg h1] at h
        exact hfin _ _ _ _ h
    | byte c =>
      rw [fgets_loop] at h
      by_cases h1 : (i : Int) < n - 1
      · rw [if_pos h1] at h
        simp only [store] at h
        by_cases h2 : i < size
        · simp only [h2, if_true] at h
          by_cases h3 : c = 10
          · rw [if_pos h3] at h
            obtain ⟨g1, g2, g3⟩ := fgets_finish_shape _ _ _ _ _ h
            refine ⟨i + 1, by omega, g1, g2, fun j hj1 hj2 => absurd hj2 (by omega), ?_⟩
            intro j hj
            rw [g3 j (by omega)]
            have hne : j ≠ i := by omega
            simp [poke, hne]
          · rw [if_neg h3] at h
            obtain ⟨m, g1, g2, g3, g4, g5⟩ := ih _ _ _ h hret
            refine ⟨m, by omega, g2, g3, ?_, ?_⟩
            · intro j hj1 hj2
              by_cases hji : j = i
              · rw [hji, g5 i (by omega)]
                simp [poke, h3]
              · exact g4 j (by omega) hj2
            · intro j hj
              rw [g5 j (by omega)]
              have hne : j ≠ i := by omega
              simp [poke, hne]
        · simp [h2] at h
      · rw [if_neg h1] at h
        exact hfin _ _ _ _ h

theorem fgets_shape (s : Buf) (size : Nat) (n : Int) (stream : FILE) (r : fgets_result)
    (h : fgets s size n stream = .ok r) (hret : r.ret = true) :
    ∃ m, m < size ∧ r.s m = 0 ∧ ∀ j, j + 1 < m → r.s j ≠ 10 := by
  unfold fgets at h
  by_cases hn : n ≤ 0
  · rw [if_pos hn] at h
    simp only [Except.ok.injEq] at h
    subst h
    simp at hret
  · rw [if_neg hn] at h
    obtain ⟨m, _, g2, g3, g4, _⟩ := fgets_loop_shape _ _ _ _ _ _ _ h hret
    exact ⟨m, g2, g3, fun j hj => g4 j (Nat.zero_le _) hj⟩

/-- C11. Whenever `safe_scanf_string` returns Success, for every capacity and
every input, the result is a valid string within its capacity: the capacity is
at least 1, the reported count is at most `capacity - 1`, the buffer byte at
index count is NUL, none of the first count bytes is a NUL or a line
terminator, and the count is the string length of the buffer. -/
theorem safe_scanf_string_success_valid (buffer_size : Nat) (buffer : Buf) (chars_read : Nat)
    (stdin : FILE) (r : string_result)
    (h : safe_scanf_string (some buffer) buffer_size (some chars_read) stdin = .ok r)
    (hs : r.status = SAFE_SCANF_SUCCESS) :
    ∃ b count, r.buffer = some b ∧ r.chars_read = some count ∧ 1 ≤ buffer_size ∧
      count ≤ buffer_size - 1 ∧ b count = 0 ∧ (∀ j, j < count → b j ≠ 0 ∧ b j ≠ 10) ∧
      strnlen b buffer_size = count := by
  have key : ∃ b count, r.buffer = some b ∧ r.chars_read = some count ∧ count < buffer_size ∧
      b count = 0 ∧ (∀ j, j < count → b j ≠ 0 ∧ b j ≠ 10) := by
    rcases safe_scanf_string_cases buffer buffer_size chars_read stdin r h with
      ⟨_, rfl⟩ | ⟨h0, fr, hf, hc⟩
    · simp at hs
    · rcases hc with ⟨_, _, rfl⟩ | ⟨_, _, rfl⟩ | ⟨_, _, rfl⟩ | ⟨hret, htr, htn, rfl⟩ |
        ⟨hret, htr, htn, rfl⟩
      · simp at hs
      · exact ⟨_, 0, rfl, rfl, by omega, by simp [poke], fun j hj => absurd hj (by omega)⟩
      · simp at hs
      · obtain ⟨m, hm, hz, hnl⟩ := fgets_shape _ _ _ _ _ hf hret
        obtain ⟨hl1, hl2, _⟩ := strnlen_spec fr.s buffer_size
        have hle := strnlen_le_of_nul fr.s buffer_size m hz
        obtain ⟨t1, t2, _⟩ := trailing_newline_true _ _ _ htn
        refine ⟨_, _, rfl, rfl, t2, by simp [poke], ?_⟩
        intro j hj
        have hne : j ≠ strnlen fr.s buffer_size - 1 := by omega
        simp only [poke, if_neg hne]
        exact ⟨hl2 j (by omega), hnl j (by omega)⟩
      · obtain ⟨m, hm, hz, hnl⟩ := fgets_shape _ _ _ _ _ hf hret
        obtain ⟨hl1, hl2, hl3⟩ := strnlen_spec fr.s buffer_size
        have hle := strnlen_le_of_nul fr.s buffer_size m hz
        have hlast := trailing_newline_false _ _ _ htn
        refine ⟨_, _, rfl, rfl, by omega, hl3 (by omega), ?_⟩
        intro j hj
        refine ⟨hl2 j hj, ?_⟩
        by_cases hjm : j + 1 < m
        · exact hnl j hjm
        · have hj1 : j = strnlen fr.s buffer_size - 1 := by omega
          rw [hj1]
          exact hlast (by omega)
  obtain ⟨b, count, hb, hc, hlt, hz, hall⟩ := key
  refine ⟨b, count, hb, hc, by omega, by omega, hz, hall, ?_⟩
  unfold strnlen
  exact strnlen_loop_eq b count hz buffer_size 0 (Nat.zero_le _) (by omega)
    (fun j _ hj => (hall j hj).1)

theorem safe_scanf_string_success_valid_witness :
    safe_scanf_string (some (fun _ => 255)) 10 (some 0)
        ⟨bytes [104, 101, 108, 108, 111, 10, 65], false⟩
      = .ok ⟨SAFE_SCANF_SUCCESS,
          some (poke (blit (fun _ => 255) 0 ([104, 101, 108, 108, 111] ++ [10, 0])) 5 0), some 5,
          ⟨bytes [65], false⟩⟩ ∧
    ∃ b count,
      some (poke (blit (fun _ => 255) 0 ([104, 101, 108, 108, 111] ++ [10, 0])) 5 0) = some b ∧
      some 5 = some count ∧ 1 ≤ 10 ∧
      count ≤ 10 - 1 ∧ b count = 0 ∧ (∀ j, j < count → b j ≠ 0 ∧ b j ≠ 10) ∧
      strnlen b 10 = count :=
  ⟨rfl, safe_scanf_string_success_valid 10 (fun _ => 255) 0
    ⟨bytes [104, 101, 108, 108, 111, 10, 65], false⟩
    ⟨SAFE_SCANF_SUCCESS,
      some (poke (blit (fun _ => 255) 0 ([104, 101, 108, 108, 111] ++ [10, 0])) 5 0), some 5,
      ⟨bytes [65], false⟩⟩ rfl rfl⟩

/-! ## The calls return -/

theorem int_of_size_t_le (n : Nat) : int_of_size_t n ≤ (n : Int) := by
  unfold int_of_size_t
  have h := Nat.mod_le n 4294967296
  split_ifs <;> omega

theorem fgets_loop_returns (size : Nat) (n : Int) (err : Bool) (hn : n ≤ (size : Int)) :
    ∀ (pending : List Input) (i : Nat) (s : Buf), (i : Int) ≤ n - 1 →
      ∃ r, fgets_loop size n err pending i s = .ok r := by
  have hfin : ∀ (s : Buf) (i : Nat) (stream : FILE), (i : Int) ≤ n - 1 →
      ∃ r, fgets_finish size s i stream = .ok r := by
    intro s i stream hi
    have h : i < size := by omega
    simp only [fgets_finish, store, h, if_true]
    exact ⟨_, rfl⟩
  intro pending
  induction pending with
  | nil =>
    intro i s hi
    rw [fgets_loop]
    by_cases h1 : (i : Int) < n - 1
    · rw [if_pos h1]
      by_cases h2 : i = 0
      · rw [if_pos h2]
        exact ⟨_, rfl⟩
      · simp only [h2, if_false]
        exact hfin _ _ _ hi
    · rw [if_neg h1]
      exact hfin _ _ _ hi
  | cons x rest ih =>
    intro i s hi
    cases x with
    | error =>
      rw [fgets_loop]
      by_cases h1 : (i : Int) < n - 1
      · rw [if_pos h1]
        exact ⟨_, rfl⟩
      · rw [if_neg h1]
        exact hfin _ _ _ hi
    | byte c =>
      rw [fgets_loop]
      by_cases h1 : (i : Int) < n - 1
      · have h2 : i < size := by omega
        rw [if_pos h1]
        simp only [store, h2, if_true]
        by_cases h3 : c = 10
        · rw [if_pos h3]
          exact hfin _ _ _ (by push_cast; omega)
        · rw [if_neg h3]
          exact ih _ _ (by push_cast; omega)
      · rw [if_neg h1]
        exact hfin _ _ _ hi

theorem fgets_returns (s : Buf) (size : Nat) (stream : FILE) :
    ∃ r, fgets s size (int_of_size_t size) stream = .ok r := by
  unfold fgets
  by_cases hn : int_of_size_t size ≤ 0
  · rw [if_pos hn]
    exact ⟨_, rfl⟩
  · rw [if_neg hn]
    exact fgets_loop_returns size _ _ (int_of_size_t_le size) _ _ _ (by push_cast; omega)

/-- With a capacity other than 1 no access of `safe_scanf_string` falls
outside the buffer: the call returns. -/
theorem safe_scanf_string_returns (buffer : Option Buf) (buffer_size : Nat)
    (chars_read : Option Nat) (stdin : FILE) (h1 : buffer_size ≠ 1) :
    ∃ r, safe_scanf_string buffer buffer_size chars_read stdin = .ok r := by
  cases buffer with
  | none => exact ⟨_, rfl⟩
  | some buf =>
    cases chars_read with
    | none => exact ⟨_, rfl⟩
    | some cnt =>
      unfold safe_scanf_string
      simp only []
      by_cases h0 : buffer_size = 0
      · rw [if_pos h0]
        exact ⟨_, rfl⟩
      · rw [if_neg h0]
        obtain ⟨fr, hf⟩ := fgets_returns buf buffer_size stdin
        rw [hf]
        simp only []
        have hpos : 0 < buffer_size := by omega
        by_cases hret : fr.ret = false
        · rw [if_pos hret]
          by_cases herr : ferror fr.stream = true
          · rw [if_pos herr]
            exact ⟨_, rfl⟩
          · rw [if_neg herr]
            simp only [store, hpos, if_true]
            exact ⟨_, rfl⟩
        · rw [if_neg hret]
          obtain ⟨hl1, _, _⟩ := strnlen_spec fr.s buffer_size
          generalize strnlen fr.s buffer_size = len at hl1
          have htr : ∃ t, truncated fr.s buffer_size len = .ok t := by
            unfold truncated
            by_cases h : len = buffer_size - 1
            · have hsub : size_sub len 1 = len - 1 := by
                unfold size_sub
                rw [if_pos (by omega)]
              have hlt : len - 1 < buffer_size := by omega
              rw [if_pos h, hsub, load, if_pos hlt]
              exact ⟨_, rfl⟩
            · rw [if_neg h]
              exact ⟨_, rfl⟩
          have htn : ∃ t, trailing_newline fr.s buffer_size len = .ok t := by
            unfold trailing_newline
            by_cases h : 0 < len
            · have hlt : len - 1 < buffer_size := by omega
              rw [if_pos h, load, if_pos hlt]
              exact ⟨_, rfl⟩
            · rw [if_neg h]
              exact ⟨_, rfl⟩
          obtain ⟨t, ht⟩ := htr
          obtain ⟨t2, ht2⟩ := htn
          rw [ht]
          cases t with
          | true => exact ⟨_, rfl⟩
          | false =>
            simp only []
            rw [ht2]
            cases t2 with
            | false => exact ⟨_, rfl⟩
            | true =>
              have hlt : len - 1 < buffer_size := by omega
              simp only [store, hlt, if_true]
              exact ⟨_, rfl⟩

theorem safe_scanf_int_convert_frame (old : Int) (text : List Nat) (stdin : FILE)
    (h : (safe_scanf_int_convert old text stdin).status ≠ SAFE_SCANF_SUCCESS) :
    (safe_scanf_int_convert old text stdin).value = some old := by
  unfold safe_scanf_int_convert at h ⊢
  simp only [] at h ⊢
  split_ifs with h1 h2
  · rfl
  · rfl
  · rw [if_neg h1, if_neg h2] at h
    exact absurd rfl h

/-- C12. For every input stream and every initial value of the output location
(`value` null or not), `safe_scanf_int` returns, and whenever its status is
other than Success the output integer is left exactly as it was. -/
theorem safe_scanf_int_failure_keeps_output (value : Option Int) (stdin : FILE) (buffer : Buf)
    (chars_read : Nat) :
    ∃ r, safe_scanf_int value stdin buffer chars_read = .ok r ∧
      (r.status ≠ SAFE_SCANF_SUCCESS → r.value = value) := by
  cases value with
  | none => exact ⟨_, rfl, fun _ => rfl⟩
  | some old =>
    obtain ⟨rs, hrs⟩ := safe_scanf_string_returns (some buffer) 32 (some chars_read) stdin
      (by decide)
    unfold safe_scanf_int
    simp only []
    rw [hrs]
    simp only []
    by_cases hs : rs.status = SAFE_SCANF_SUCCESS
    · obtain ⟨b, text, hb, ht, _⟩ :=
        safe_scanf_string_success_cstring buffer 32 chars_read stdin rs hrs hs
      simp only [hs, ne_eq, not_true_eq_false, if_false, hb, Option.getD_some, ht]
      exact ⟨_, rfl, safe_scanf_int_convert_frame old text rs.stdin⟩
    · rw [if_pos hs]
      exact ⟨_, rfl, fun _ => rfl⟩

/-! ## What a failed `safe_scanf_string` leaves behind -/

/-- C13 as stated fails: with capacity 4 and the stream `"abcdef\nZ"` the call
returns BufferOverflow and the caller's buffer, which held four bytes 255, now
holds `"abc"` and a NUL; the count is left as it was. -/
theorem safe_scanf_string_overflow_writes_buffer :
    ∃ r, safe_scanf_string (some (fun _ => 255)) 4 (some 7)
          ⟨bytes [97, 98, 99, 100, 101, 102, 10, 90], false⟩ = .ok r ∧
      r.status = SAFE_SCANF_BUFFER_OVERFLOW ∧ r.status ≠ SAFE_SCANF_SUCCESS ∧
      peek (fun _ => 255) 4 = [255, 255, 255, 255] ∧
      r.buffer.map (fun b => peek b 4) = some [97, 98, 99, 0] ∧
      r.chars_read = some 7 :=
  ⟨_, rfl, rfl, by decide, rfl, rfl, rfl⟩

/-- Whenever `safe_scanf_string` returns a status other than Success the count
output has not been modified, and the buffer has not been modified either
when the status is NullReference or the capacity is 0. -/
theorem safe_scanf_string_failure_keeps_count (buffer : Option Buf) (buffer_size : Nat)
    (chars_read : Option Nat) (stdin : FILE) (r : string_result)
    (h : safe_scanf_string buffer buffer_size chars_read stdin = .ok r)
    (hs : r.status ≠ SAFE_SCANF_SUCCESS) :
    r.chars_read = chars_read ∧
      (r.status = SAFE_SCANF_NULL_PTR ∨ buffer_size = 0 → r.buffer = buffer) := by
  have hnull : ∀ (b : Option Buf) (c : Option Nat), b = none ∨ c = none →
      safe_scanf_string b buffer_size c stdin = .ok ⟨SAFE_SCANF_NULL_PTR, b, c, stdin⟩ := by
    intro b c hbc
    rcases hbc with rfl | rfl
    · rfl
    · cases b <;> rfl
  cases buffer with
  | none =>
    rw [hnull none chars_read (Or.inl rfl)] at h
    simp only [Except.ok.injEq] at h
    subst h
    exact ⟨rfl, fun _ => rfl⟩
  | some buf =>
    cases chars_read with
    | none =>
      rw [hnull (some buf) none (Or.inr rfl)] at h
      simp only [Except.ok.injEq] at h
      subst h
      exact ⟨rfl, fun _ => rfl⟩
    | some cnt =>
      rcases safe_scanf_string_cases buf buffer_size cnt stdin r h with
        ⟨_, rfl⟩ | ⟨h0, fr, hf, hc⟩
      · exact ⟨rfl, fun _ => rfl⟩
      · rcases hc with ⟨_, _, rfl⟩ | ⟨_, _, rfl⟩ | ⟨_, _, rfl⟩ | ⟨_, _, _, rfl⟩ |
          ⟨_, _, _, rfl⟩
        · refine ⟨rfl, fun hh => ?_⟩
          rcases hh with hh | hh
          · simp at hh
          · exact absurd hh h0
        · exact absurd rfl hs
        · refine ⟨rfl, fun hh => ?_⟩
          rcases hh with hh | hh
          · simp at hh
          · exact absurd hh h0
        · exact absurd rfl hs
        · exact absurd rfl hs

theorem fgets_finish_frame (size : Nat) (s : Buf) (i : Nat) (stream : FILE) (r : fgets_result)
    (h : fgets_finish size s i stream = .ok r) : ∀ j, size ≤ j → r.s j = s j := by
  obtain ⟨hi, _, _⟩ := fgets_finish_shape _ _ _ _ _ h
  unfold fgets_finish store at h
  rw [if_pos hi] at h
  simp only [Except.ok.injEq] at h
  subst h
  intro j hj
  have hne : j ≠ i := by omega
  simp [poke, hne]

/-- The array after `fgets`, whatever it returns, differs from the array before
only at indices inside the array. -/
theorem fgets_loop_frame (size : Nat) (n : Int) (err : Bool) :
    ∀ (pending : List Input) (i : Nat) (s : Buf) (r : fgets_result),
      fgets_loop size n err pending i s = .ok r → ∀ j, size ≤ j → r.s j = s j := by
  intro pending
  induction pending with
  | nil =>
    intro i s r h
    rw [fgets_loop] at h
    by_cases h1 : (i : Int) < n - 1
    · rw [if_pos h1] at h
      by_cases h2 : i = 0
      · simp only [h2, if_true, Except.ok.injEq] at h
        subst h
        exact fun _ _ => rfl
      · simp only [h2, if_false] at h
        exact fgets_finish_frame _ _ _ _ _ h
    · rw [if_neg h1] at h
      exact fgets_finish_frame _ _ _ _ _ h
  | cons x rest ih =>
    intro i s r h
    cases x with
    | error =>
      rw [fgets_loop] at h
      by_cases h1 : (i : Int) < n - 1
      · rw [if_pos h1] at h
        simp only [Except.ok.injEq] at h
        subst h
        exact fun _ _ => rfl
      · rw [if_neg h1] at h
        exact fgets_finish_frame _ _ _ _ _ h
    | byte c =>
      rw [fgets_loop] at h
      by_cases h1 : (i : Int) < n - 1
      · rw [if_pos h1] at h
        simp only [store] at h
        by_cases h2 : i < size
        · simp only [h2, if_true] at h
          have hp : ∀ j, size ≤ j → poke s i c j = s j := by
            intro j hj
            have hne : j ≠ i := by omega
            simp [poke, hne]
          by_cases h3 : c = 10
          · rw [if_pos h3] at h
            intro j hj
            rw [fgets_finish_frame _ _ _ _ _ h j hj, hp j hj]
          · rw [if_neg h3] at h
            intro j hj
            rw [ih _ _ _ h j hj, hp j hj]
        · simp [h2] at h
      · rw [if_neg h1] at h
        exact fgets_finish_frame _ _ _ _ _ h

theorem fgets_frame (s : Buf) (size : Nat) (n : Int) (stream : FILE) (r : fgets_result)
    (h : fgets s size n stream = .ok r) : ∀ j, size ≤ j → r.s j = s j := by
  unfold fgets at h
  by_cases hn : n ≤ 0
  · rw [if_pos hn] at h
    simp only [Except.ok.injEq] at h
    subst h
    exact fun _ _ => rfl
  · rw [if_neg hn] at h
    exact fgets_loop_frame _ _ _ _ _ _ _ h

theorem truncated_true (b : Buf) (size len : Nat) (h : truncated b size len = .ok true) :
    len = size - 1 ∧ size_sub len 1 < size ∧ b (size_sub len 1) ≠ 10 := by
  unfold truncated at h
  by_cases h1 : len = size - 1
  · rw [if_pos h1] at h
    unfold load at h
    by_cases h2 : size_sub len 1 < size
    · rw [if_pos h2] at h
      simp only [Except.ok.injEq, bne_iff_ne, ne_eq] at h
      exact ⟨h1, h2, h⟩
    · rw [if_neg h2] at h
      simp at h
  · rw [if_neg h1] at h
    simp at h

/-- C13 amended. For every capacity, every input stream and every initial buffer
contents, a call of `safe_scanf_string` other than the one with capacity 1 and
both references non-null (which reads out of bounds) returns, and whenever its
status is other than Success: the count output has not been modified; the
buffer has not been modified when the status is NullReference or the capacity
is 0; and after a failed read (IOError) or a truncated read (BufferOverflow
with a capacity other than 0) the buffer is the array that `fgets` left, in
which no byte at an index from the capacity on has changed, and which after
BufferOverflow is a string of `capacity - 1` bytes, the last one not a line
terminator, with its NUL at index `capacity - 1`. -/
theorem safe_scanf_string_failure_outputs (buffer : Option Buf) (buffer_size : Nat)
    (chars_read : Option Nat) (stdin : FILE)
    (hcap : buffer_size = 1 → buffer = none ∨ chars_read = none) :
    ∃ r, safe_scanf_string buffer buffer_size chars_read stdin = .ok r ∧
      (r.status ≠ SAFE_SCANF_SUCCESS →
        r.chars_read = chars_read ∧
        (r.status = SAFE_SCANF_NULL_PTR ∨ buffer_size = 0 → r.buffer = buffer) ∧
        (r.status = SAFE_SCANF_IO_ERROR ∨
            (r.status = SAFE_SCANF_BUFFER_OVERFLOW ∧ buffer_size ≠ 0) →
          ∃ buf fr, buffer = some buf ∧
            fgets buf buffer_size (int_of_size_t buffer_size) stdin = .ok fr ∧
            r.buffer = some fr.s ∧ (∀ j, buffer_size ≤ j → fr.s j = buf j) ∧
            (r.status = SAFE_SCANF_BUFFER_OVERFLOW →
              strnlen fr.s buffer_size = buffer_size - 1 ∧ fr.s (buffer_size - 1) = 0 ∧
              2 ≤ buffer_size ∧ fr.s (buffer_size - 2) ≠ 10))) := by
  have hret : ∃ r, safe_scanf_string buffer buffer_size chars_read stdin = .ok r := by
    by_cases h1 : buffer_size = 1
    · rcases hcap h1 with rfl | rfl
      · exact ⟨_, rfl⟩
      · cases buffer <;> exact ⟨_, rfl⟩
    · exact safe_scanf_string_returns buffer buffer_size chars_read stdin h1
  obtain ⟨r, h⟩ := hret
  refine ⟨r, h, fun hs => ?_⟩
  obtain ⟨hcount, hkeep⟩ :=
    safe_scanf_string_failure_keeps_count buffer buffer_size chars_read stdin r h hs
  refine ⟨hcount, hkeep, fun hst => ?_⟩
  have hnull : ∀ (b : Option Buf) (c : Option Nat), b = none ∨ c = none →
      safe_scanf_string b buffer_size c stdin = .ok ⟨SAFE_SCANF_NULL_PTR, b, c, stdin⟩ := by
    intro b c hbc
    rcases hbc with rfl | rfl
    · rfl
    · cases b <;> rfl
  have hnot : ∀ (b : Option Buf) (c : Option Nat), b = none ∨ c = none →
      safe_scanf_string b buffer_size c stdin = .ok r → False := by
    intro b c hbc h'
    rw [hnull b c hbc] at h'
    simp only [Except.ok.injEq] at h'
    subst h'
    rcases hst with hh | ⟨hh, _⟩ <;> simp at hh
  cases buffer with
  | none => exact absurd h (hnot none chars_read (Or.inl rfl))
  | some buf =>
    cases chars_read with
    | none => exact absurd h (hnot (some buf) none (Or.inr rfl))
    | some cnt =>
      rcases safe_scanf_string_cases buf buffer_size cnt stdin r h with
        ⟨h0, rfl⟩ | ⟨h0, fr, hf, hc⟩
      · rcases hst with hh | ⟨_, hh⟩
        · simp at hh
        · exact absurd h0 hh
      · have hframe := fgets_frame _ _ _ _ _ hf
        rcases hc with ⟨_, _, rfl⟩ | ⟨_, _, rfl⟩ | ⟨_, htr, rfl⟩ | ⟨_, _, _, rfl⟩ |
          ⟨_, _, _, rfl⟩
        · exact ⟨buf, fr, rfl, hf, rfl, hframe, fun hh => by simp at hh⟩
        · exact absurd rfl hs
        · refine ⟨buf, fr, rfl, hf, rfl, hframe, fun _ => ?_⟩
          obtain ⟨t1, t2, t3⟩ := truncated_true _ _ _ htr
          obtain ⟨_, _, hl3⟩ := strnlen_spec fr.s buffer_size
          have hz : fr.s (strnlen fr.s buffer_size) = 0 := hl3 (by omega)
          have h2 : 2 ≤ buffer_size := by
            by_contra hlt
            have hb1 : buffer_size = 1 := by omega
            rcases hcap hb1 with hh | hh <;> simp at hh
          have hsub : size_sub (strnlen fr.s buffer_size) 1 = buffer_size - 2 := by
            unfold size_sub
            rw [if_pos (by omega)]
            omega
          rw [hsub] at t3
          rw [t1] at hz
          exact ⟨t1, hz, h2, t3⟩
        · exact absurd rfl hs
        · exact absurd rfl hs

theorem safe_scanf_string_failure_outputs_witness :
    ((4 : Nat) = 1 → some (fun _ : Nat => (255 : Nat)) = none ∨ some (7 : Nat) = none) ∧
    ∃ r, safe_scanf_string (some (fun _ => 255)) 4 (some 7)
          ⟨bytes [97, 98, 99, 100, 101, 102, 10, 90], false⟩ = .ok r ∧
      (r.status ≠ SAFE_SCANF_SUCCESS →
        r.chars_read = some 7 ∧
        (r.status = SAFE_SCANF_NULL_PTR ∨ 4 = 0 → r.buffer = some (fun _ => 255)) ∧
        (r.status = SAFE_SCANF_IO_ERROR ∨ (r.status = SAFE_SCANF_BUFFER_OVERFLOW ∧ 4 ≠ 0) →
          ∃ buf fr, some (fun _ => 255) = some buf ∧
            fgets buf 4 (int_of_size_t 4)
              ⟨bytes [97, 98, 99, 100, 101, 102, 10, 90], false⟩ = .ok fr ∧
            r.buffer = some fr.s ∧ (∀ j, 4 ≤ j → fr.s j = buf j) ∧
            (r.status = SAFE_SCANF_BUFFER_OVERFLOW →
              strnlen fr.s 4 = 4 - 1 ∧ fr.s (4 - 1) = 0 ∧ 2 ≤ 4 ∧ fr.s (4 - 2) ≠ 10))) :=
  ⟨fun h => absurd h (by decide),
    safe_scanf_string_failure_outputs (some (fun _ => 255)) 4 (some 7)
      ⟨bytes [97, 98, 99, 100, 101, 102, 10, 90], false⟩ (fun h => absurd h (by decide))⟩

/-- The failures evaluated. Capacity 4 on `"abcdef\nZ"`: BufferOverflow, the
buffer holds `"abc"` and a NUL, the count is as it was. Capacity 4 on `"a"`
followed by a failed read: IOError, the buffer holds the `'a'` that was stored
before the read failed, the count is as it was and the error indicator is
cleared. -/
theorem safe_scanf_string_failure_outputs_cases :
    (∃ r, safe_scanf_string (some (fun _ => 255)) 4 (some 7)
          ⟨bytes [97, 98, 99, 100, 101, 102, 10, 90], false⟩ = .ok r ∧
      r.status = SAFE_SCANF_BUFFER_OVERFLOW ∧ r.chars_read = some 7 ∧
      r.buffer.map (fun b => peek b 5) = some [97, 98, 99, 0, 255] ∧
      r.stdin = ⟨bytes [90], false⟩) ∧
    (∃ r, safe_scanf_string (some (fun _ => 255)) 4 (some 7)
          ⟨[Input.byte 97, Input.error, Input.byte 98], false⟩ = .ok r ∧
      r.status = SAFE_SCANF_IO_ERROR ∧ r.chars_read = some 7 ∧
      r.buffer.map (fun b => peek b 5) = some [97, 255, 255, 255, 255] ∧
      r.stdin = ⟨[Input.byte 98], false⟩) :=
  ⟨⟨_, rfl, rfl, rfl, rfl, rfl⟩, ⟨_, rfl, rfl, rfl, rfl, rfl⟩⟩

/-! ## The largest count of a successful read -/

/-- After a Success with a capacity of at least 2 the count is at most
`capacity - 2`, whatever the input. -/
theorem safe_scanf_string_success_count_le (buffer : Buf) (buffer_size chars_read : Nat)
    (stdin : FILE) (r : string_result) (h2 : 2 ≤ buffer_size)
    (h : safe_scanf_string (some buffer) buffer_size (some chars_read) stdin = .ok r)
    (hs : r.status = SAFE_SCANF_SUCCESS) :
    ∃ count, r.chars_read = some count ∧ count ≤ buffer_size - 2 := by
  rcases safe_scanf_string_cases buffer buffer_size chars_read stdin r h with
    ⟨h0, _⟩ | ⟨h0, fr, hf, hc⟩
  · omega
  · rcases hc with ⟨_, _, rfl⟩ | ⟨_, _, rfl⟩ | ⟨_, _, rfl⟩ | ⟨hret, htr, htn, rfl⟩ |
      ⟨hret, htr, htn, rfl⟩
    · simp at hs
    · exact ⟨0, rfl, Nat.zero_le _⟩
    · simp at hs
    · obtain ⟨m, hm, hz, _⟩ := fgets_shape _ _ _ _ _ hf hret
      have hle := strnlen_le_of_nul fr.s buffer_size m hz
      exact ⟨_, rfl, by omega⟩
    · obtain ⟨m, hm, hz, _⟩ := fgets_shape _ _ _ _ _ hf hret
      have hle := strnlen_le_of_nul fr.s buffer_size m hz
      have hlast := trailing_newline_false _ _ _ htn
      refine ⟨_, rfl, ?_⟩
      rcases truncated_false _ _ _ htr with hne | ⟨_, h10⟩
      · omega
      · by_cases hnz : 0 < strnlen fr.s buffer_size
        · have hsub : size_sub (strnlen fr.s buffer_size) 1 = strnlen fr.s buffer_size - 1 := by
            unfold size_sub
            rw [if_pos (by omega)]
          rw [hsub] at h10
          exact absurd h10 (hlast hnz)
        · omega

/-! ## Reading the buffer back -/

theorem peek_eq (b : Buf) (l : List Nat) (h : ∀ j, j < l.length → b j = l.getD j 0) :
    peek b l.length = l := by
  unfold peek
  apply List.ext_getElem
  · simp
  · intro j h1 h2
    have hj : j < l.length := by simpa using h1
    rw [List.getElem_map, List.getElem_range, h j hj, List.getD_eq_getElem _ _ hj]

theorem peek_blit (buffer : Buf) (l : List Nat) : peek (blit buffer 0 l) l.length = l := by
  apply peek_eq
  intro j hj
  rw [blit_apply, if_pos ⟨Nat.zero_le _, by omega⟩, Nat.sub_zero]

theorem peek_line_image (buffer : Buf) (line : List Nat) :
    peek (poke (blit buffer 0 (line ++ [10, 0])) line.length 0) (line.length + 1)
      = line ++ [0] := by
  have h := peek_eq (poke (blit buffer 0 (line ++ [10, 0])) line.length 0) (line ++ [0])
    (by
      intro j hj
      simp only [List.length_append, List.length_cons, List.length_nil] at hj
      rw [line_image_apply]
      by_cases h1 : j < line.length
      · rw [if_pos h1, List.getD_append _ _ _ _ h1]
      · have h2 : j = line.length := by omega
        subst h2
        rw [if_neg h1, if_pos (Nat.le_succ _), List.getD_append_right _ _ _ _ (le_refl _),
          Nat.sub_self]
        rfl)
  simpa using h

/-! ## A final line without terminator -/

theorem fgets_loop_eof (size : Nat) (n : Int) (err : Bool) :
    ∀ (line : List Nat) (i : Nat) (s : Buf), (∀ c ∈ line, c ≠ 10) → 0 < i + line.length →
      ((i + line.length + 1 : Nat) : Int) < n → i + line.length < size →
      fgets_loop size n err (bytes line) i s
        = .ok ⟨true, blit s i (line ++ [0]), ⟨[], err⟩⟩ := by
  intro line
  induction line with
  | nil =>
    intro i s _ hpos hn hs
    have h1 : (i : Int) < n - 1 := by
      simp only [List.length_nil, Nat.add_zero] at hn; omega
    have h2 : i ≠ 0 := by
      simp only [List.length_nil, Nat.add_zero] at hpos; omega
    have h3 : i < size := by simpa using hs
    rw [show bytes [] = [] from rfl, fgets_loop, if_pos h1, if_neg h2]
    simp [fgets_finish, store, h3, blit]
  | cons c line ih =>
    intro i s hnl _ hn hs
    have h1 : (i : Int) < n - 1 := by
      simp only [List.length_cons] at hn; omega
    have h2 : i < size := by
      simp only [List.length_cons] at hs; omega
    have hc : c ≠ 10 := hnl c (by simp)
    have hrec := ih (i + 1) (poke s i c) (fun d hd => hnl d (by simp [hd])) (by omega)
      (by simp only [List.length_cons] at hn; omega)
      (by simp only [List.length_cons] at hs; omega)
    have hb : bytes (c :: line) = Input.byte c :: bytes line := by
      simp [bytes]
    rw [hb, fgets_loop]
    simp only [h1, if_true, store, h2, if_neg hc]
    rw [hrec]
    simp [blit]

/-- The text captured as it is: when `fgets` stores the bytes `text` (free of
NUL bytes, the last one not a line terminator) followed by a `'\0'`, and
their number is not `buffer_size - 1`, the call returns Success with that
text and its length. -/
theorem safe_scanf_string_after_fgets (buffer : Buf) (buffer_size chars_read : Nat)
    (stdin stdin1 : FILE) (text : List Nat) (h0 : buffer_size ≠ 0)
    (hf : fgets buffer buffer_size (int_of_size_t buffer_size) stdin
      = .ok ⟨true, blit buffer 0 (text ++ [0]), stdin1⟩)
    (hnul : ∀ c ∈ text, c ≠ 0) (hlast : 0 < text.length → text.getD (text.length - 1) 0 ≠ 10)
    (hlen : text.length < buffer_size) (hne : text.length ≠ buffer_size - 1) :
    safe_scanf_string (some buffer) buffer_size (some chars_read) stdin
      = .ok ⟨SAFE_SCANF_SUCCESS, some (blit buffer 0 (text ++ [0])), some text.length,
          stdin1⟩ := by
  have hb : ∀ j, j < text.length → blit buffer 0 (text ++ [0]) j = text.getD j 0 := by
    intro j hj
    have h3 : 0 ≤ j ∧ j < 0 + (text ++ [0]).length := by
      simp only [List.length_append, List.length_cons, List.length_nil]; omega
    rw [blit_apply, if_pos h3, Nat.sub_zero, List.getD_append _ _ _ _ hj]
  have hz : blit buffer 0 (text ++ [0]) text.length = 0 := by
    have h3 : 0 ≤ text.length ∧ text.length < 0 + (text ++ [0]).length := by
      simp only [List.length_append, List.length_cons, List.length_nil]; omega
    rw [blit_apply, if_pos h3, Nat.sub_zero, List.getD_append_right _ _ _ _ (le_refl _),
      Nat.sub_self]
    rfl
  have hlenv : strnlen (blit buffer 0 (text ++ [0])) buffer_size = text.length := by
    unfold strnlen
    apply strnlen_loop_eq _ _ hz buffer_size 0 (by omega) (by omega)
    intro j _ hj
    rw [hb j hj, List.getD_eq_getElem _ _ hj]
    exact hnul _ (List.getElem_mem _)
  simp only [safe_scanf_string, if_neg h0]
  rw [hf]
  simp only [Bool.true_eq_false, if_false, hlenv]
  rw [truncated_short _ _ _ hne, trailing_newline_no _ _ _ (by omega)
    (fun hpos => by rw [hb _ (by omega)]; exact hlast hpos)]

/-- An unterminated final line that leaves room, for a capacity within the
range of `int`: `k` bytes free of NUL bytes and line terminators, with
`1 <= k <= capacity - 2`, then end-of-input, give Success with those bytes
followed by a `'\0'`, count `k`, and the stream at end-of-input. -/
theorem safe_scanf_string_short_final_line (buffer : Buf) (buffer_size chars_read : Nat)
    (err : Bool) (line : List Nat) (hcap : buffer_size ≤ 2147483647)
    (hnl : ∀ c ∈ line, c ≠ 10) (hnul : ∀ c ∈ line, c ≠ 0) (hpos : 1 ≤ line.length)
    (hlen : line.length + 2 ≤ buffer_size) :
    safe_scanf_string (some buffer) buffer_size (some chars_read) ⟨bytes line, err⟩
      = .ok ⟨SAFE_SCANF_SUCCESS, some (blit buffer 0 (line ++ [0])), some line.length,
          ⟨[], err⟩⟩ := by
  have hn : ¬ ((buffer_size : Int) ≤ 0) := by omega
  have hf := fgets_loop_eof buffer_size (buffer_size : Int) err line 0 buffer hnl
    (by omega) (by omega) (by omega)
  apply safe_scanf_string_after_fgets buffer buffer_size chars_read _ _ line (by omega) _ hnul
    _ (by omega) (by omega)
  · rw [int_of_size_t_small buffer_size hcap, fgets, if_neg hn]
    exact hf
  · intro h
    rw [List.getD_eq_getElem _ _ (by omega)]
    exact hnl _ (List.getElem_mem _)

/-- A capacity that the cast to `int` shrinks: when `(int)buffer_size` is
`pre.length + 1`, less than `buffer_size`, the call captures only the bytes
`pre` of a longer input and returns Success. -/
theorem safe_scanf_string_wrapped (buffer : Buf) (buffer_size chars_read : Nat) (err : Bool)
    (pre : List Nat) (rest : List Input)
    (hn : int_of_size_t buffer_size = ((pre.length + 1 : Nat) : Int))
    (hlt : pre.length + 1 < buffer_size) (hpos : 1 ≤ pre.length)
    (hnl : ∀ c ∈ pre, c ≠ 10) (hnul : ∀ c ∈ pre, c ≠ 0) :
    safe_scanf_string (some buffer) buffer_size (some chars_read) ⟨bytes pre ++ rest, err⟩
      = .ok ⟨SAFE_SCANF_SUCCESS, some (blit buffer 0 (pre ++ [0])), some pre.length,
          ⟨rest, err⟩⟩ := by
  have hn0 : ¬ (((pre.length + 1 : Nat) : Int) ≤ 0) := by omega
  have hf := fgets_loop_full buffer_size ((pre.length + 1 : Nat) : Int) err rest pre 0 buffer
    hnl (by push_cast; omega) (by omega)
  apply safe_scanf_string_after_fgets buffer buffer_size chars_read _ _ pre (by omega) _ hnul
    _ (by omega) (by omega)
  · rw [hn, fgets, if_neg hn0]
    exact hf
  · intro h
    rw [List.getD_eq_getElem _ _ (by omega)]
    exact hnl _ (List.getElem_mem _)

/-! ## Two lines, long lines, final lines -/

/-- Two lines that fit, for a capacity within the range of `int`: two
successive calls return Success, the first with the first line, the second
with the second line, each followed by a `'\0'` and with its length as count,
and the stream is then what followed the second terminator. -/
theorem safe_scanf_string_two_lines (buffer : Buf) (buffer_size chars_read : Nat) (err : Bool)
    (line1 line2 : List Nat) (rest : List Input) (hcap : buffer_size ≤ 2147483647)
    (hnl1 : ∀ c ∈ line1, c ≠ 10) (hnul1 : ∀ c ∈ line1, c ≠ 0)
    (hlen1 : line1.length + 1 < buffer_size)
    (hnl2 : ∀ c ∈ line2, c ≠ 10) (hnul2 : ∀ c ∈ line2, c ≠ 0)
    (hlen2 : line2.length + 1 < buffer_size) :
    ∃ r1 r2,
      safe_scanf_string (some buffer) buffer_size (some chars_read)
        ⟨bytes line1 ++ Input.byte 10 :: (bytes line2 ++ Input.byte 10 :: rest), err⟩ = .ok r1 ∧
      r1.status = SAFE_SCANF_SUCCESS ∧ r1.chars_read = some line1.length ∧
      r1.buffer.map (fun b => peek b (line1.length + 1)) = some (line1 ++ [0]) ∧
      safe_scanf_string r1.buffer buffer_size r1.chars_read r1.stdin = .ok r2 ∧
      r2.status = SAFE_SCANF_SUCCESS ∧ r2.chars_read = some line2.length ∧
      r2.buffer.map (fun b => peek b (line2.length + 1)) = some (line2 ++ [0]) ∧
      r2.stdin = ⟨rest, err⟩ := by
  refine ⟨_, _, safe_scanf_string_line buffer buffer_size chars_read err line1 _ hcap hnl1 hnul1
    hlen1, rfl, rfl, ?_, safe_scanf_string_line _ buffer_size _ err line2 rest hcap hnl2 hnul2
    hlen2, rfl, rfl, ?_, rfl⟩
  · simp only [Option.map_some', peek_line_image]
  · simp only [Option.map_some', peek_line_image]

theorem clear_stdin_buffer_nil (err : Bool) : clear_stdin_buffer ⟨[], err⟩ = ⟨[], err⟩ := rfl

/-- An unterminated final line that fills the buffer exactly, for a capacity
from 2 to `INT_MAX`: BufferOverflow, with the stream left at end-of-input. -/
theorem safe_scanf_string_exact_fit_final_line (buffer : Buf) (buffer_size chars_read : Nat)
    (err : Bool) (line : List Nat) (h2 : 2 ≤ buffer_size) (hcap : buffer_size ≤ 2147483647)
    (hnl : ∀ c ∈ line, c ≠ 10) (hnul : ∀ c ∈ line, c ≠ 0)
    (hlen : line.length = buffer_size - 1) :
    safe_scanf_string (some buffer) buffer_size (some chars_read) ⟨bytes line, err⟩
      = .ok ⟨SAFE_SCANF_BUFFER_OVERFLOW, some (blit buffer 0 (line ++ [0])), some chars_read,
          ⟨[], err⟩⟩ := by
  have h := safe_scanf_string_overflow buffer buffer_size chars_read err line [] h2 hcap hnl
    hnul hlen
  rw [List.append_nil, clear_stdin_buffer_nil] at h
  exact h

/-- A line of exactly `capacity - 1` characters before its terminator, for a
capacity from 2 to `INT_MAX`: BufferOverflow, and the drain consumes the
terminator. -/
theorem safe_scanf_string_exact_fit_line (buffer : Buf) (buffer_size chars_read : Nat)
    (err : Bool) (line : List Nat) (rest : List Input) (h2 : 2 ≤ buffer_size)
    (hcap : buffer_size ≤ 2147483647) (hnl : ∀ c ∈ line, c ≠ 10) (hnul : ∀ c ∈ line, c ≠ 0)
    (hlen : line.length = buffer_size - 1) :
    safe_scanf_string (some buffer) buffer_size (some chars_read)
        ⟨bytes line ++ Input.byte 10 :: rest, err⟩
      = .ok ⟨SAFE_SCANF_BUFFER_OVERFLOW, some (blit buffer 0 (line ++ [0])), some chars_read,
          ⟨rest, err⟩⟩ := by
  rw [safe_scanf_string_overflow buffer buffer_size chars_read err line _ h2 hcap hnl hnul hlen]
  have h : clear_stdin_buffer ⟨Input.byte 10 :: rest, err⟩ = ⟨rest, err⟩ := by
    simp [clear_stdin_buffer, clear_stdin_loop]
  rw [h]

/-- On an unterminated final line of more than 30 bytes, free of NUL bytes,
`safe_scanf_int` returns the BufferOverflow of the line reader with the
stream drained to end-of-input. -/
theorem safe_scanf_int_long_final_line (old : Int) (buffer : Buf) (chars_read : Nat)
    (err : Bool) (line : List Nat) (hnl : ∀ c ∈ line, c ≠ 10) (hnul : ∀ c ∈ line, c ≠ 0)
    (hlen : 31 ≤ line.length) :
    safe_scanf_int (some old) ⟨bytes line, err⟩ buffer chars_read
      = .ok ⟨SAFE_SCANF_BUFFER_OVERFLOW, some old, ⟨[], err⟩⟩ := by
  have hsplit : bytes line = bytes (line.take 31) ++ bytes (line.drop 31) := by
    rw [← bytes_append, List.take_append_drop]
  have htake : ∀ c ∈ line.take 31, c ∈ line := fun c hc => List.mem_of_mem_take hc
  have hdrop : ∀ c ∈ line.drop 31, c ∈ line := fun c hc => List.mem_of_mem_drop hc
  have hl : (line.take 31).length = 32 - 1 := by
    rw [List.length_take]; omega
  unfold safe_scanf_int
  simp only []
  rw [hsplit, safe_scanf_string_overflow buffer 32 chars_read err (line.take 31) _ (by omega)
    (by omega) (fun c hc => hnl c (htake c hc)) (fun c hc => hnul c (htake c hc)) hl]
  simp only [clear_stdin_buffer]
  rw [clear_stdin_loop_eof err (line.drop 31) (fun c hc => hnl c (hdrop c hc))]
  simp

theorem safe_scanf_string_long_line_status (buffer : Buf) (chars_read : Nat) (err : Bool)
    (line : List Nat) (tail : List Input) (hnl : ∀ c ∈ line, c ≠ 10)
    (hnul : ∀ c ∈ line, c ≠ 0) (hlen : 31 ≤ line.length) :
    ∃ rs, safe_scanf_string (some buffer) 32 (some chars_read) ⟨bytes line ++ tail, err⟩
        = .ok rs ∧ rs.status = SAFE_SCANF_BUFFER_OVERFLOW := by
  have hsplit : bytes line ++ tail
      = bytes (line.take 31) ++ (bytes (line.drop 31) ++ tail) := by
    rw [← List.append_assoc, ← bytes_append, List.take_append_drop]
  have htake : ∀ c ∈ line.take 31, c ∈ line := fun c hc => List.mem_of_mem_take hc
  have hl : (line.take 31).length = 32 - 1 := by
    rw [List.length_take]; omega
  rw [hsplit, safe_scanf_string_overflow buffer 32 chars_read err (line.take 31) _ (by omega)
    (by omega) (fun c hc => hnl c (htake c hc)) (fun c hc => hnul c (htake c hc)) hl]
  exact ⟨_, rfl, rfl⟩

theorem bytes_replicate_two (n c : Nat) (t : List Nat) :
    bytes (List.replicate (n + 2) c ++ t)
      = Input.byte c :: Input.byte c :: bytes (List.replicate n c ++ t) := by
  simp [bytes, List.replicate_succ]

theorem safe_scanf_string_wrapped_two (buffer : Buf) (chars_read : Nat) (err : Bool)
    (a b : Nat) (tail : List Input) (ha0 : a ≠ 0) (ha : a ≠ 10) (hb0 : b ≠ 0) (hb : b ≠ 10) :
    safe_scanf_string (some buffer) 4294967299 (some chars_read)
        ⟨Input.byte a :: Input.byte b :: tail, err⟩
      = .ok ⟨SAFE_SCANF_SUCCESS, some (blit buffer 0 ([a, b] ++ [0])), some 2, ⟨tail, err⟩⟩ := by
  have h := safe_scanf_string_wrapped buffer 4294967299 chars_read err [a, b] tail
    (by simp [int_of_size_t]) (by simp) (by simp)
    (by intro c hc; simp at hc; rcases hc with rfl | rfl <;> assumption)
    (by intro c hc; simp at hc; rcases hc with rfl | rfl <;> assumption)
  exact h

/-- C14 fails on the code. With capacity 4294967299 (`2^32 + 3`) and the stream
`"abc\ndef\nZ"`, two lines that with their terminators are shorter than the
capacity, the first call returns Success with `"ab"` and count 2 (not `"abc"`
and 3), the second returns Success with `"c"` and count 1 (not `"def"` and 3),
and the stream is then `"def\nZ"`, not `"Z"`. -/
theorem safe_scanf_string_two_lines_capacity_above_int_max :
    ∃ r1 r2,
      safe_scanf_string (some (fun _ => 255)) 4294967299 (some 0)
        ⟨bytes ([97, 98, 99] ++ [10] ++ [100, 101, 102] ++ [10] ++ [90]), false⟩ = .ok r1 ∧
      r1.status = SAFE_SCANF_SUCCESS ∧ r1.chars_read = some 2 ∧
      r1.buffer.map (fun b => peek b 3) = some [97, 98, 0] ∧
      safe_scanf_string r1.buffer 4294967299 r1.chars_read r1.stdin = .ok r2 ∧
      r2.status = SAFE_SCANF_SUCCESS ∧ r2.chars_read = some 1 ∧
      r2.buffer.map (fun b => peek b 2) = some [99, 0] ∧
      r2.stdin = ⟨bytes [100, 101, 102, 10, 90], false⟩ :=
  ⟨_, _, rfl, rfl, rfl, rfl, rfl, rfl, rfl, rfl, rfl⟩

/-- C15. When the first line has 31 or more characters, free of NUL bytes,
before its line terminator or before end-of-input, the line reader reports
BufferOverflow and `safe_scanf_int` returns it, leaves the output as it was,
and leaves in the stream exactly what followed the terminator (nothing when
the line ended at end-of-input). -/
theorem safe_scanf_int_long_line_resynchronised (line : List Nat) (hlen : 31 ≤ line.length)
    (hnul : ∀ c ∈ line, c ≠ 0) (hnl : ∀ c ∈ line, c ≠ 10) (old : Int) (err : Bool)
    (buffer : Buf) (chars_read : Nat) :
    (∀ rest : List Input,
      (∃ rs, safe_scanf_string (some buffer) 32 (some chars_read)
          ⟨bytes line ++ Input.byte 10 :: rest, err⟩ = .ok rs ∧
        rs.status = SAFE_SCANF_BUFFER_OVERFLOW) ∧
      safe_scanf_int (some old) ⟨bytes line ++ Input.byte 10 :: rest, err⟩ buffer chars_read
        = .ok ⟨SAFE_SCANF_BUFFER_OVERFLOW, some old, ⟨rest, err⟩⟩) ∧
    ((∃ rs, safe_scanf_string (some buffer) 32 (some chars_read) ⟨bytes line, err⟩ = .ok rs ∧
        rs.status = SAFE_SCANF_BUFFER_OVERFLOW) ∧
      safe_scanf_int (some old) ⟨bytes line, err⟩ buffer chars_read
        = .ok ⟨SAFE_SCANF_BUFFER_OVERFLOW, some old, ⟨[], err⟩⟩) := by
  refine ⟨fun rest => ⟨safe_scanf_string_long_line_status buffer chars_read err line _ hnl hnul
    hlen, safe_scanf_int_long_line old buffer chars_read err line rest hnl hnul hlen⟩, ?_,
    safe_scanf_int_long_final_line old buffer chars_read err line hnl hnul hlen⟩
  have h := safe_scanf_string_long_line_status buffer chars_read err line [] hnl hnul hlen
  rw [List.append_nil] at h
  exact h

theorem safe_scanf_int_long_line_resynchronised_witness :
    31 ≤ (List.replicate 35 97).length ∧ (∀ c ∈ List.replicate 35 97, c ≠ 0) ∧
    (∀ c ∈ List.replicate 35 97, c ≠ 10) ∧
    ((∀ rest : List Input,
      (∃ rs, safe_scanf_string (some (fun _ => 255)) 32 (some 0)
          ⟨bytes (List.replicate 35 97) ++ Input.byte 10 :: rest, false⟩ = .ok rs ∧
        rs.status = SAFE_SCANF_BUFFER_OVERFLOW) ∧
      safe_scanf_int (some 7) ⟨bytes (List.replicate 35 97) ++ Input.byte 10 :: rest, false⟩
          (fun _ => 255) 0
        = .ok ⟨SAFE_SCANF_BUFFER_OVERFLOW, some 7, ⟨rest, false⟩⟩) ∧
    ((∃ rs, safe_scanf_string (some (fun _ => 255)) 32 (some 0)
          ⟨bytes (List.replicate 35 97), false⟩ = .ok rs ∧
        rs.status = SAFE_SCANF_BUFFER_OVERFLOW) ∧
      safe_scanf_int (some 7) ⟨bytes (List.replicate 35 97), false⟩ (fun _ => 255) 0
        = .ok ⟨SAFE_SCANF_BUFFER_OVERFLOW, some 7, ⟨[], false⟩⟩)) :=
  ⟨by decide, by decide, by decide,
    safe_scanf_int_long_line_resynchronised (List.replicate 35 97) (by decide) (by decide)
      (by decide) 7 false (fun _ => 255) 0⟩

/-- C17 fails on the code. With capacity 4294967299 (`2^32 + 3`) and a stream of
exactly `capacity - 1` = 4294967298 bytes `'b'` followed by end-of-input, the
call does not return BufferOverflow: it returns Success with count 2 and
leaves 4294967296 bytes unread instead of the stream at end-of-input. -/
theorem safe_scanf_string_exact_fit_capacity_above_int_max :
    (∀ c ∈ List.replicate 4294967298 98, c ≠ 0 ∧ c ≠ 10) ∧
    (List.replicate 4294967298 98).length = 4294967299 - 1 ∧
    ∃ r, safe_scanf_string (some (fun _ => 255)) 4294967299 (some 0)
          ⟨bytes (List.replicate 4294967298 98 ++ []), false⟩ = .ok r ∧
      r.status = SAFE_SCANF_SUCCESS ∧ r.status ≠ SAFE_SCANF_BUFFER_OVERFLOW ∧
      r.chars_read = some 2 ∧
      r.stdin = ⟨bytes (List.replicate 4294967296 98 ++ []), false⟩ := by
  refine ⟨?_, ?_, _, (congrArg (fun p => safe_scanf_string (some (fun _ => 255)) 4294967299
      (some 0) ⟨p, false⟩) (bytes_replicate_two 4294967296 98 [])).trans
      (safe_scanf_string_wrapped_two (fun _ => 255) 0 false 98 98 _ (by decide) (by decide)
        (by decide) (by decide)), rfl, by decide, rfl, rfl⟩
  · intro c hc
    rw [List.eq_of_mem_replicate hc]
    decide
  · rw [List.length_replicate]

/-- C18 fails on the code. With capacity 4294967299 (`2^32 + 3`) and the stream
`"world"` followed by end-of-input (5 bytes, between 1 and `capacity - 2`),
the call returns Success with only `"wo"` in the buffer and count 2, and
leaves `"rld"` unread instead of the stream at end-of-input. -/
theorem safe_scanf_string_short_final_line_capacity_above_int_max :
    (∀ c ∈ [119, 111, 114, 108, 100], c ≠ 0 ∧ c ≠ 10) ∧
    1 ≤ [119, 111, 114, 108, 100].length ∧
    [119, 111, 114, 108, 100].length ≤ 4294967299 - 2 ∧
    ∃ r, safe_scanf_string (some (fun _ => 255)) 4294967299 (some 0)
          ⟨bytes [119, 111, 114, 108, 100], false⟩ = .ok r ∧
      r.status = SAFE_SCANF_SUCCESS ∧ r.chars_read = some 2 ∧
      r.buffer.map (fun b => peek b 3) = some [119, 111, 0] ∧
      r.stdin = ⟨bytes [114, 108, 100], false⟩ :=
  ⟨by decide, by decide, by decide, _, rfl, rfl, rfl, rfl, rfl⟩

/-- C19 fails on the code in its second part. With capacity 4294967299
(`2^32 + 3`) and a line of exactly `capacity - 1` = 4294967298 characters `'c'`
before its terminator, followed by `"Z"`, the call does not reject the line:
it returns Success with count 2, and the terminator is not consumed. The
count is within `capacity - 2`, as the first part says. -/
theorem safe_scanf_string_exact_fit_line_capacity_above_int_max :
    (∀ c ∈ List.replicate 4294967298 99, c ≠ 0 ∧ c ≠ 10) ∧
    (List.replicate 4294967298 99).length = 4294967299 - 1 ∧
    ∃ r, safe_scanf_string (some (fun _ => 255)) 4294967299 (some 0)
          ⟨bytes (List.replicate 4294967298 99 ++ [10, 90]), false⟩ = .ok r ∧
      r.status = SAFE_SCANF_SUCCESS ∧ r.status ≠ SAFE_SCANF_BUFFER_OVERFLOW ∧
      r.chars_read = some 2 ∧ 2 ≤ 4294967299 - 2 ∧
      r.stdin = ⟨bytes (List.replicate 4294967296 99 ++ [10, 90]), false⟩ := by
  refine ⟨?_, ?_, _, (congrArg (fun p => safe_scanf_string (some (fun _ => 255)) 4294967299
      (some 0) ⟨p, false⟩) (bytes_replicate_two 4294967296 99 [10, 90])).trans
      (safe_scanf_string_wrapped_two (fun _ => 255) 0 false 99 99 _ (by decide) (by decide)
        (by decide) (by decide)), rfl, by decide, rfl, by decide, rfl⟩
  · intro c hc
    rw [List.eq_of_mem_replicate hc]
    decide
  · rw [List.length_replicate]

/-! ## `strtod` accepts only floating-point literals -/

theorem scan_sign_spec (t : List Nat) :
    t = (scan_sign t).1 ++ (scan_sign t).2 ∧
      ((scan_sign t).1 = [] ∨ (scan_sign t).1 = [43] ∨ (scan_sign t).1 = [45]) := by
  unfold scan_sign
  split
  · exact ⟨rfl, Or.inr (Or.inl rfl)⟩
  · exact ⟨rfl, Or.inr (Or.inr rfl)⟩
  · exact ⟨rfl, Or.inl rfl⟩

theorem scan_exponent_sound (lower upper : Nat) (r : List Nat) :
    (scan_exponent lower upper r = [] ∨ exponent_part lower upper (scan_exponent lower upper r)) ∧
      ∃ t, r = scan_exponent lower upper r ++ t := by
  cases r with
  | nil => exact ⟨Or.inl rfl, [], rfl⟩
  | cons m t =>
    rw [scan_exponent]
    by_cases hm : m = lower ∨ m = upper
    · rw [if_pos hm]
      obtain ⟨hs1, hs2⟩ := scan_sign_spec t
      by_cases hd : (scan_sign t).2.takeWhile isdigit = []
      · rw [if_pos hd]
        exact ⟨Or.inl rfl, _, rfl⟩
      · rw [if_neg hd]
        refine ⟨Or.inr ⟨m, _, _, rfl, hm, hs2, hd, fun c hc => List.mem_takeWhile_imp hc⟩,
          (scan_sign t).2.dropWhile isdigit, ?_⟩
        conv_lhs => rw [hs1, ← List.takeWhile_append_dropWhile isdigit (scan_sign t).2]
        simp
    · rw [if_neg hm]
      exact ⟨Or.inl rfl, _, rfl⟩

theorem scan_mantissa_sound (isd : Nat → Bool) (body : List Nat) :
    (scan_mantissa isd body = [] ∨ mantissa isd (scan_mantissa isd body)) ∧
      ∃ t, body = scan_mantissa isd body ++ t := by
  have hdig : ∀ u : List Nat, ∀ c ∈ u.takeWhile isd, isd c = true :=
    fun u c hc => List.mem_takeWhile_imp hc
  have hsplit := List.takeWhile_append_dropWhile isd body
  unfold scan_mantissa
  split
  · rename_i t heq
    by_cases h0 : body.takeWhile isd = [] ∧ t.takeWhile isd = []
    · rw [if_pos h0]
      exact ⟨Or.inl rfl, _, rfl⟩
    · rw [if_neg h0]
      refine ⟨Or.inr (Or.inr ⟨_, _, rfl, hdig body, hdig t, ?_⟩), t.dropWhile isd, ?_⟩
      · by_contra hc
        exact h0 ⟨by_contra fun h => hc (Or.inl h), by_contra fun h => hc (Or.inr h)⟩
      · conv_lhs => rw [← hsplit, heq, ← List.takeWhile_append_dropWhile isd t]
        simp
  · by_cases h0 : body.takeWhile isd = []
    · exact ⟨Or.inl h0, _, hsplit.symm⟩
    · exact ⟨Or.inr (Or.inl ⟨h0, hdig body⟩), _, hsplit.symm⟩

theorem scan_number_sound (isd : Nat → Bool) (lower upper : Nat) (body : List Nat) :
    (scan_number isd lower upper body = [] ∨
        number_literal isd lower upper (scan_number isd lower upper body)) ∧
      ∃ t, body = scan_number isd lower upper body ++ t := by
  unfold scan_number
  obtain ⟨hm, t1, ht1⟩ := scan_mantissa_sound isd body
  by_cases h0 : scan_mantissa isd body = []
  · rw [if_pos h0]
    exact ⟨Or.inl rfl, _, rfl⟩
  · rw [if_neg h0]
    have hdrop : body.drop (scan_mantissa isd body).length = t1 := by
      have h := List.drop_left (scan_mantissa isd body) t1
      rw [← ht1] at h
      exact h
    obtain ⟨he, t2, ht2⟩ := scan_exponent_sound lower upper t1
    rw [hdrop]
    refine ⟨Or.inr ⟨_, _, rfl, hm.resolve_left h0, he⟩, t2, ?_⟩
    conv_lhs => rw [ht1, ht2]
    simp

theorem scan_hex_sound (body : List Nat) :
    (scan_hex body = [] ∨ float_literal (scan_hex body)) ∧ ∃ t, body = scan_hex body ++ t := by
  unfold scan_hex
  split
  · rename_i x t
    by_cases hx : x = 120 ∨ x = 88
    · rw [if_pos hx]
      obtain ⟨hn, t2, ht2⟩ := scan_number_sound isxdigit 112 80 t
      by_cases h0 : scan_number isxdigit 112 80 t = []
      · rw [if_pos h0]
        exact ⟨Or.inl rfl, _, rfl⟩
      · rw [if_neg h0]
        refine ⟨Or.inr (Or.inr (Or.inl ⟨x, _, rfl, hx, hn.resolve_left h0⟩)), t2, ?_⟩
        conv_lhs => rw [ht2]
        simp
    · rw [if_neg hx]
      exact ⟨Or.inl rfl, _, rfl⟩
  · exact ⟨Or.inl rfl, _, rfl⟩

theorem scan_inf_sound (body : List Nat) :
    (scan_inf body = [] ∨ float_literal (scan_inf body)) ∧ ∃ t, body = scan_inf body ++ t := by
  unfold scan_inf
  by_cases h8 : (body.take 8).map tolower = [105, 110, 102, 105, 110, 105, 116, 121]
  · rw [if_pos h8]
    exact ⟨Or.inr (Or.inr (Or.inr (Or.inr (Or.inl h8)))), _, (List.take_append_drop 8 body).symm⟩
  · rw [if_neg h8]
    by_cases h3 : (body.take 3).map tolower = [105, 110, 102]
    · rw [if_pos h3]
      exact ⟨Or.inr (Or.inr (Or.inr (Or.inl h3))), _, (List.take_append_drop 3 body).symm⟩
    · rw [if_neg h3]
      exact ⟨Or.inl rfl, _, rfl⟩

theorem scan_nan_sound (body : List Nat) :
    (scan_nan body = [] ∨ float_literal (scan_nan body)) ∧ ∃ t, body = scan_nan body ++ t := by
  unfold scan_nan
  by_cases h3 : (body.take 3).map tolower = [110, 97, 110]
  · rw [if_pos h3]
    have hplain : (body.take 3 = [] ∨ float_literal (body.take 3)) ∧
        ∃ t, body = body.take 3 ++ t :=
      ⟨Or.inr (Or.inr (Or.inr (Or.inr (Or.inr ⟨body.take 3, [], by simp, h3, Or.inl rfl⟩)))),
        _, (List.take_append_drop 3 body).symm⟩
    split
    · rename_i t heq
      split
      · rename_i t2 heq2
        refine ⟨Or.inr (Or.inr (Or.inr (Or.inr (Or.inr ⟨body.take 3, _, rfl, h3,
          Or.inr ⟨t.takeWhile is_nchar, rfl, fun c hc => List.mem_takeWhile_imp hc⟩⟩)))),
          t2, ?_⟩
        conv_lhs => rw [← List.take_append_drop 3 body, heq,
          ← List.takeWhile_append_dropWhile is_nchar t, heq2]
        simp
      · exact hplain
    · exact hplain
  · rw [if_neg h3]
    exact ⟨Or.inl rfl, _, rfl⟩

theorem strtod_literal_sound (body : List Nat) :
    (strtod_literal body = [] ∨ float_literal (strtod_literal body)) ∧
      ∃ t, body = strtod_literal body ++ t := by
  unfold strtod_literal
  by_cases h1 : scan_hex body ≠ []
  · rw [if_pos h1]
    exact scan_hex_sound body
  · rw [if_neg h1]
    by_cases h2 : scan_number isdigit 101 69 body ≠ []
    · rw [if_pos h2]
      obtain ⟨hn, ht⟩ := scan_number_sound isdigit 101 69 body
      exact ⟨Or.inr (Or.inl (hn.resolve_left h2)), ht⟩
    · rw [if_neg h2]
      by_cases h3 : scan_inf body ≠ []
      · rw [if_pos h3]
        exact scan_inf_sound body
      · rw [if_neg h3]
        exact scan_nan_sound body

theorem float_literal_ne_nil (l : List Nat) (h : float_literal l) : l ≠ [] := by
  have hm : ∀ (isd : Nat → Bool) (lo up : Nat) (x : List Nat), number_literal isd lo up x →
      x ≠ [] := by
    rintro isd lo up x ⟨m, e, rfl, hm, _⟩
    rcases hm with ⟨hne, _⟩ | ⟨ip, fp, rfl, _⟩
    · simp [hne]
    · simp
  rcases h with h | ⟨x, t, rfl, _, _⟩ | h | h | ⟨nan, tail, rfl, hn, _⟩
  · exact hm _ _ _ _ h
  · simp
  · intro h0; rw [h0] at h; simp at h
  · intro h0; rw [h0] at h; simp at h
  · intro h0
    have : nan = [] := by
      cases nan with
      | nil => rfl
      | cons a t => simp at h0
    rw [this] at hn
    simp at hn

theorem not_float_token_nil : ¬ float_token [] := by
  rintro ⟨ws, sign, lit, h, _, _, hl⟩
  have hne := float_literal_ne_nil lit hl
  have : lit = [] := by
    have h2 := congrArg List.length h
    simp only [List.length_nil, List.length_append] at h2
    exact List.eq_nil_of_length_eq_zero (by omega)
  exact hne this

theorem starts_with_of_float_token (t : List Nat) (h : float_token t) :
    starts_with_float_literal t := by
  obtain ⟨ws, sign, lit, h1, h2, h3, h4⟩ := h
  exact ⟨ws, sign, lit, [], by rw [List.append_nil]; exact h1, h2, h3, h4⟩

theorem strtod_endptr (D : Type) (arith : strtod_arith D) (text : List Nat) (errno : Int) :
    (strtod arith text errno).endptr
      = if strtod_literal (scan_sign (text.dropWhile isspace)).2 = [] then 0
        else (text.takeWhile isspace).length + (scan_sign (text.dropWhile isspace)).1.length
          + (strtod_literal (scan_sign (text.dropWhile isspace)).2).length := by
  unfold strtod strtod_subject
  split_ifs <;> rfl

theorem float_token_of_converted (D : Type) (arith : strtod_arith D) (text : List Nat)
    (hnz : ∀ c ∈ text, c ≠ 0) (h1 : (strtod arith text 0).endptr ≠ 0)
    (h2 : text.getD (strtod arith text 0).endptr 0 = 0) : float_token text := by
  rw [strtod_endptr] at h1 h2
  obtain ⟨hs1, hs2⟩ := scan_sign_spec (text.dropWhile isspace)
  obtain ⟨hl, t, ht⟩ := strtod_literal_sound (scan_sign (text.dropWhile isspace)).2
  by_cases h0 : strtod_literal (scan_sign (text.dropWhile isspace)).2 = []
  · rw [if_pos h0] at h1
    exact absurd rfl h1
  · rw [if_neg h0] at h2
    have hlen := length_le_of_getD_eq_zero text _ hnz h2
    have htext : text = text.takeWhile isspace ++ ((scan_sign (text.dropWhile isspace)).1 ++
        (strtod_literal (scan_sign (text.dropWhile isspace)).2 ++ t)) := by
      rw [← ht, ← hs1, List.takeWhile_append_dropWhile]
    have hl2 : text.length = (text.takeWhile isspace).length +
        ((scan_sign (text.dropWhile isspace)).1.length +
          ((strtod_literal (scan_sign (text.dropWhile isspace)).2).length + t.length)) := by
      conv_lhs => rw [htext]
      simp only [List.length_append]
    have hnil : t = [] := List.eq_nil_of_length_eq_zero (by omega)
    refine ⟨text.takeWhile isspace, (scan_sign (text.dropWhile isspace)).1,
      strtod_literal (scan_sign (text.dropWhile isspace)).2, ?_,
      fun c hc => List.mem_takeWhile_imp hc, hs2, hl.resolve_left h0⟩
    conv_lhs => rw [htext, hnil, List.append_nil, ← List.append_assoc]

theorem safe_scanf_double_convert_error (D : Type) (arith : strtod_arith D) (old : D)
    (text : List Nat) (stdin : FILE) (hnz : ∀ c ∈ text, c ≠ 0) (h : ¬ float_token text) :
    safe_scanf_double_convert (strtod arith) old text stdin
      = ⟨SAFE_SCANF_CONVERSION_ERROR, some old, stdin⟩ := by
  unfold safe_scanf_double_convert
  simp only []
  by_cases hc : (strtod arith text 0).endptr = 0 ∨ text.getD (strtod arith text 0).endptr 0 ≠ 0
  · rw [if_pos hc]
  · exfalso
    apply h
    have h1 : (strtod arith text 0).endptr ≠ 0 := fun h0 => hc (Or.inl h0)
    have h2 : text.getD (strtod arith text 0).endptr 0 = 0 := by
      by_contra h0
      exact hc (Or.inr h0)
    exact float_token_of_converted D arith text hnz h1 h2

theorem safe_scanf_double_of_capture (D : Type) (strtod : List Nat → Int → strtod_result D)
    (old : D) (stdin : FILE) (buffer : Buf) (chars_read : Nat)
    (r : string_result) (b : Buf) (text : List Nat)
    (h : safe_scanf_string (some buffer) 64 (some chars_read) stdin = .ok r)
    (hs : r.status = SAFE_SCANF_SUCCESS) (hb : r.buffer = some b)
    (ht : cstring b 64 = .ok text) :
    safe_scanf_double strtod (some old) stdin buffer chars_read
      = .ok (safe_scanf_double_convert strtod old text r.stdin) := by
  unfold safe_scanf_double
  simp only []
  rw [h]
  simp only [hs, ne_eq, not_true_eq_false, if_false, hb, Option.getD_some, ht]

/-- C16. Whenever the line reader captures the first line successfully into the
64-byte buffer, `safe_scanf_double` fails with ConversionError and leaves the
output as it was when the captured text (the C string in the buffer) is empty,
does not start with a floating-point literal, or is not in its entirety a
floating-point token, which is the case when characters are left over after
the literal. -/
theorem safe_scanf_double_conversion_error (D : Type) (arith : strtod_arith D) (old : D)
    (stdin : FILE) (buffer : Buf) (chars_read : Nat) (r : string_result)
    (h : safe_scanf_string (some buffer) 64 (some chars_read) stdin = .ok r)
    (hs : r.status = SAFE_SCANF_SUCCESS) :
    ∃ b text, r.buffer = some b ∧ cstring b 64 = .ok text ∧
      (text = [] ∨ ¬ starts_with_float_literal text ∨ ¬ float_token text →
        safe_scanf_double (strtod arith) (some old) stdin buffer chars_read
          = .ok ⟨SAFE_SCANF_CONVERSION_ERROR, some old, r.stdin⟩) := by
  obtain ⟨b, text, hb, ht, hnz⟩ :=
    safe_scanf_string_success_cstring buffer 64 chars_read stdin r h hs
  refine ⟨b, text, hb, ht, fun hcase => ?_⟩
  have hnot : ¬ float_token text := by
    rcases hcase with h0 | h0 | h0
    · rw [h0]; exact not_float_token_nil
    · exact fun hf => h0 (starts_with_of_float_token text hf)
    · exact h0
  rw [safe_scanf_double_of_capture D (strtod arith) old stdin buffer chars_read r b text h hs
    hb ht, safe_scanf_double_convert_error D arith old text r.stdin hnz hnot]

theorem safe_scanf_double_conversion_error_witness :
    safe_scanf_string (some (fun _ => 255)) 64 (some 0) ⟨bytes [51, 46, 49, 52, 120, 10], false⟩
      = .ok ⟨SAFE_SCANF_SUCCESS,
          some (poke (blit (fun _ => 255) 0 ([51, 46, 49, 52, 120] ++ [10, 0])) 5 0), some 5,
          ⟨[], false⟩⟩ ∧
    ∃ b text,
      some (poke (blit (fun _ => 255) 0 ([51, 46, 49, 52, 120] ++ [10, 0])) 5 0) = some b ∧
      cstring b 64 = .ok text ∧
      (text = [] ∨ ¬ starts_with_float_literal text ∨ ¬ float_token text →
        safe_scanf_double (strtod (⟨fun _ => (), fun _ => false⟩ : strtod_arith Unit)) (some ())
            ⟨bytes [51, 46, 49, 52, 120, 10], false⟩ (fun _ => 255) 0
          = .ok ⟨SAFE_SCANF_CONVERSION_ERROR, some (), ⟨[], false⟩⟩) :=
  ⟨rfl, safe_scanf_double_conversion_error Unit ⟨fun _ => (), fun _ => false⟩ ()
    ⟨bytes [51, 46, 49, 52, 120, 10], false⟩ (fun _ => 255) 0
    ⟨SAFE_SCANF_SUCCESS,
      some (poke (blit (fun _ => 255) 0 ([51, 46, 49, 52, 120] ++ [10, 0])) 5 0), some 5,
      ⟨[], false⟩⟩ rfl rfl⟩

/-- Conversions of `safe_scanf_double` evaluated, for every arithmetic of
`strtod`: the empty line, end-of-input with zero bytes, `"abc"`, `"3.14x"`,
`"."`, `"1e"` and `"0x"` give ConversionError with the output left as it was. -/
theorem safe_scanf_double_conversion_error_cases (D : Type) (arith : strtod_arith D)
    (old : D) :
    safe_scanf_double (strtod arith) (some old) ⟨bytes [10, 66], false⟩ (fun _ => 255) 0
      = .ok ⟨SAFE_SCANF_CONVERSION_ERROR, some old, ⟨bytes [66], false⟩⟩ ∧
    safe_scanf_double (strtod arith) (some old) ⟨[], false⟩ (fun _ => 255) 0
      = .ok ⟨SAFE_SCANF_CONVERSION_ERROR, some old, ⟨[], false⟩⟩ ∧
    safe_scanf_double (strtod arith) (some old) ⟨bytes [97, 98, 99, 10], false⟩ (fun _ => 255) 0
      = .ok ⟨SAFE_SCANF_CONVERSION_ERROR, some old, ⟨[], false⟩⟩ ∧
    safe_scanf_double (strtod arith) (some old) ⟨bytes [51, 46, 49, 52, 120, 10], false⟩
        (fun _ => 255) 0
      = .ok ⟨SAFE_SCANF_CONVERSION_ERROR, some old, ⟨[], false⟩⟩ ∧
    safe_scanf_double (strtod arith) (some old) ⟨bytes [46, 10], false⟩ (fun _ => 255) 0
      = .ok ⟨SAFE_SCANF_CONVERSION_ERROR, some old, ⟨[], false⟩⟩ ∧
    safe_scanf_double (strtod arith) (some old) ⟨bytes [49, 101, 10], false⟩ (fun _ => 255) 0
      = .ok ⟨SAFE_SCANF_CONVERSION_ERROR, some old, ⟨[], false⟩⟩ ∧
    safe_scanf_double (strtod arith) (some old) ⟨bytes [48, 120, 10], false⟩ (fun _ => 255) 0
      = .ok ⟨SAFE_SCANF_CONVERSION_ERROR, some old, ⟨[], false⟩⟩ :=
  ⟨rfl, rfl, rfl, rfl, rfl, rfl, rfl⟩

/-- Conversions of `safe_scanf_double` evaluated on floating-point tokens, with
an arithmetic that reports no range error: `"3.14"`, `"-1e5"`, `" +inf"`,
`"0x1p3"` and `"nan(a_1)"` give Success. -/
theorem safe_scanf_double_success_cases :
    (([[51, 46, 49, 52], [45, 49, 101, 53], [32, 43, 105, 110, 102], [48, 120, 49, 112, 51],
        [110, 97, 110, 40, 97, 95, 49, 41]] : List (List Nat)).map
      (fun text => (safe_scanf_double_convert
        (strtod (⟨fun _ => (), fun _ => false⟩ : strtod_arith Unit)) () text ⟨[], false⟩).status))
      = [SAFE_SCANF_SUCCESS, SAFE_SCANF_SUCCESS, SAFE_SCANF_SUCCESS, SAFE_SCANF_SUCCESS,
          SAFE_SCANF_SUCCESS] := by
  decide

end SafeScanf
